import Mathlib

/-!
Verification of the document section-synchronization engine and the raw data
transformer of the obsidian-timing-plugin repository.

The TypeScript sources are shallowly embedded here:
  - JS strings are modelled as Lean `String` / `List Char` (code-point level);
    `content.split('\n')` is `splitCh '\n'`, `lines.join('\n')` is `joinCh '\n'`.
  - JS `Map` is modelled as an insertion-ordered association list
    (`Map.get` = `mapGet`, `Map.set` = `mapSet`, which updates in place).
  - JS numbers are modelled as `ℚ` where fractional values can occur
    (durations in raw payloads) and as `ℤ` for validated quantities; `NaN`
    keys are modelled by `Option ℤ` (`none` = NaN; JS `Map` treats NaN as
    a single key, matching `Option` equality).
  - Thrown-and-caught exceptions become `Option`/`Except` results.
  - Regular-expression tests are expanded into explicit character scans;
    `\s` is modelled by the common whitespace characters that can actually
    occur in a line (space, tab, CR, FF, VT; LF is the split separator).
  - `Array.prototype.sort` (stable, comparator-driven) is modelled by a
    stable insertion sort.
-/

namespace TimingPlugin

/-- JS whitespace class `\s` restricted to the characters relevant here. -/
def jsWs (c : Char) : Bool :=
  c == ' ' || c == '\t' || c == '\n' || c == '\r' || c == '\x0b' || c == '\x0c'

/-- `String.prototype.split(sep)` for a one-character separator, on char lists.
`splitCh sep []` is `[[]]`, matching JS `"".split('\n') == [""]`. -/
def splitCh (sep : Char) : List Char → List (List Char)
  | [] => [[]]
  | c :: cs =>
    match splitCh sep cs with
    | [] => [[]]
    | l :: ls => if c = sep then [] :: l :: ls else (c :: l) :: ls

/-- `Array.prototype.join(sep)` for a one-character separator. -/
def joinCh (sep : Char) : List (List Char) → List Char
  | [] => []
  | [l] => l
  | l :: ls => l ++ sep :: joinCh sep ls

theorem splitCh_ne_nil (sep : Char) (cs : List Char) : splitCh sep cs ≠ [] := by
  cases cs with
  | nil => simp [splitCh]
  | cons c cs =>
    simp only [splitCh]
    cases h : splitCh sep cs with
    | nil => simp
    | cons l ls =>
      by_cases hc : c = sep <;> simp [hc]

theorem splitCh_cons_sep (sep : Char) (cs : List Char) :
    splitCh sep (sep :: cs) = [] :: splitCh sep cs := by
  simp only [splitCh]
  cases h : splitCh sep cs with
  | nil => exact absurd h (splitCh_ne_nil sep cs)
  | cons l ls => simp

theorem splitCh_cons_ne (sep c : Char) (cs : List Char) (hc : c ≠ sep) :
    splitCh sep (c :: cs) =
      (c :: (splitCh sep cs).headD []) :: (splitCh sep cs).tail := by
  simp only [splitCh]
  cases h : splitCh sep cs with
  | nil => exact absurd h (splitCh_ne_nil sep cs)
  | cons l ls => simp [hc]

theorem joinCh_splitCh (sep : Char) (cs : List Char) :
    joinCh sep (splitCh sep cs) = cs := by
  induction cs with
  | nil => rfl
  | cons c cs ih =>
    by_cases hc : c = sep
    · rw [hc, splitCh_cons_sep]
      cases h : splitCh sep cs with
      | nil => exact absurd h (splitCh_ne_nil sep cs)
      | cons l ls =>
        rw [h] at ih
        simpa [joinCh] using ih
    · rw [splitCh_cons_ne sep c cs hc]
      cases h : splitCh sep cs with
      | nil => exact absurd h (splitCh_ne_nil sep cs)
      | cons l ls =>
        rw [h] at ih
        cases ls with
        | nil => simpa [joinCh] using ih
        | cons l2 ls2 => simpa [joinCh] using ih

theorem sep_not_mem_splitCh (sep : Char) (cs : List Char) :
    ∀ l ∈ splitCh sep cs, sep ∉ l := by
  induction cs with
  | nil =>
    intro l hl
    have : l = [] := by simpa [splitCh] using hl
    simp [this]
  | cons c cs ih =>
    intro l hl
    by_cases hc : c = sep
    · rw [hc, splitCh_cons_sep] at hl
      rcases List.mem_cons.mp hl with hl | hl
      · simp [hl]
      · exact ih l hl
    · rw [splitCh_cons_ne sep c cs hc] at hl
      rcases List.mem_cons.mp hl with hl | hl
      · cases h : splitCh sep cs with
        | nil => exact absurd h (splitCh_ne_nil sep cs)
        | cons t ts =>
          rw [h] at hl
          subst hl
          intro hmem
          rcases List.mem_cons.mp hmem with h1 | h1
          · exact hc h1.symm
          · exact ih t (by rw [h]; exact List.mem_cons_self t ts) h1
      · cases h : splitCh sep cs with
        | nil => exact absurd h (splitCh_ne_nil sep cs)
        | cons t ts =>
          rw [h] at hl
          exact ih l (by rw [h]; exact List.mem_cons_of_mem t hl)

theorem splitCh_append_sep (sep : Char) (a b : List Char) :
    splitCh sep (a ++ sep :: b) = splitCh sep a ++ splitCh sep b := by
  induction a with
  | nil => simpa using splitCh_cons_sep sep b
  | cons c cs ih =>
    by_cases hc : c = sep
    · subst hc
      rw [List.cons_append, splitCh_cons_sep, splitCh_cons_sep, ih]
      simp
    · rw [List.cons_append, splitCh_cons_ne sep c _ hc, splitCh_cons_ne sep c cs hc, ih]
      cases h : splitCh sep cs with
      | nil => exact absurd h (splitCh_ne_nil sep cs)
      | cons l ls => simp

theorem splitCh_no_sep (sep : Char) (cs : List Char) (h : sep ∉ cs) :
    splitCh sep cs = [cs] := by
  induction cs with
  | nil => rfl
  | cons c cs ih =>
    have hc : c ≠ sep := fun hh => h (hh ▸ List.mem_cons_self c cs)
    rw [splitCh_cons_ne sep c cs hc, ih (fun hh => h (List.mem_cons_of_mem c hh))]
    simp

theorem splitCh_joinCh (sep : Char) (ls : List (List Char))
    (hne : ls ≠ []) (hm : ∀ l ∈ ls, sep ∉ l) :
    splitCh sep (joinCh sep ls) = ls := by
  induction ls with
  | nil => exact absurd rfl hne
  | cons l ls ih =>
    cases ls with
    | nil =>
      simpa [joinCh] using splitCh_no_sep sep l (hm l (List.mem_cons_self l []))
    | cons l2 ls2 =>
      have : joinCh sep (l :: l2 :: ls2) = l ++ sep :: joinCh sep (l2 :: ls2) := rfl
      rw [this, splitCh_append_sep,
        splitCh_no_sep sep l (hm l (List.mem_cons_self l _)),
        ih (by simp) (fun t ht => hm t (List.mem_cons_of_mem l ht))]
      simp

/-- The index of the first element satisfying `p`, if any: the shape of every
`for (...; i < lines.length; i++) { if (p) break }` scan in the source. -/
def firstIdx (p : List Char → Bool) : List (List Char) → Option Nat
  | [] => none
  | l :: ls => if p l then some 0 else (firstIdx p ls).map (· + 1)

theorem firstIdx_eq_none_iff (p : List Char → Bool) (ls : List (List Char)) :
    firstIdx p ls = none ↔ ∀ l ∈ ls, ¬ p l := by
  induction ls with
  | nil => simp [firstIdx]
  | cons l ls ih =>
    by_cases hp : p l
    · simp [firstIdx, hp]
    · simp [firstIdx, hp, ih]

theorem firstIdx_eq_some_iff (p : List Char → Bool) (ls : List (List Char)) (k : Nat) :
    firstIdx p ls = some k ↔
      k < ls.length ∧ p (ls.getD k []) ∧ ∀ j < k, ¬ p (ls.getD j []) := by
  induction ls generalizing k with
  | nil => simp [firstIdx]
  | cons l ls ih =>
    by_cases hp : p l
    · constructor
      · intro h
        simp [firstIdx, hp] at h
        subst h
        exact ⟨by simp, by simpa using hp, by omega⟩
      · intro ⟨h1, h2, h3⟩
        cases k with
        | zero => simp [firstIdx, hp]
        | succ k =>
          exact absurd (by simpa using hp) (h3 0 (Nat.succ_pos k))
    · constructor
      · intro h
        simp only [firstIdx, hp, if_false] at h
        cases hfi : firstIdx p ls with
        | none => rw [hfi] at h; simp at h
        | some k' =>
          rw [hfi] at h
          have hk : k = k' + 1 := by simpa using h.symm
          subst hk
          obtain ⟨h1, h2, h3⟩ := (ih k').mp hfi
          refine ⟨by simpa using h1, by simpa using h2, ?_⟩
          intro j hj
          cases j with
          | zero => simpa using hp
          | succ j => simpa using h3 j (by omega)
      · intro ⟨h1, h2, h3⟩
        cases k with
        | zero => simp at h2; exact absurd h2 hp
        | succ k =>
          have hfi : firstIdx p ls = some k := by
            refine (ih k).mpr ⟨by simpa using h1, by simpa using h2, ?_⟩
            intro j hj
            have := h3 (j+1) (by omega)
            simpa using this
          simp [firstIdx, hp, hfi]

theorem firstIdx_append_of_none (p : List Char → Bool) (a b : List (List Char))
    (ha : firstIdx p a = none) :
    firstIdx p (a ++ b) = (firstIdx p b).map (· + a.length) := by
  induction a with
  | nil => simp
  | cons l ls ih =>
    by_cases hp : p l
    · simp [firstIdx, hp] at ha
    · simp only [firstIdx, hp, if_false] at ha
      have hls : firstIdx p ls = none := by
        cases hfi : firstIdx p ls with
        | none => rfl
        | some k => rw [hfi] at ha; simp at ha
      have : (l :: ls) ++ b = l :: (ls ++ b) := rfl
      rw [this]
      simp only [firstIdx, hp, if_false]
      rw [ih hls]
      cases firstIdx p b with
      | none => simp
      | some k =>
        show some (k + ls.length + 1) = some (k + (ls.length + 1))
        rw [Nat.add_assoc]

theorem firstIdx_append_of_some (p : List Char → Bool) (a b : List (List Char)) (k : Nat)
    (ha : firstIdx p a = some k) :
    firstIdx p (a ++ b) = some k := by
  induction a generalizing k with
  | nil => simp [firstIdx] at ha
  | cons l ls ih =>
    by_cases hp : p l
    · have hk : k = 0 := by
        have := ha
        simp [firstIdx, hp] at this
        omega
      subst hk
      have he : (l :: ls) ++ b = l :: (ls ++ b) := rfl
      rw [he]
      simp [firstIdx, hp]
    · simp only [firstIdx, hp, if_false] at ha
      cases hfi : firstIdx p ls with
      | none => rw [hfi] at ha; simp at ha
      | some k' =>
        rw [hfi] at ha
        have hk : k = k' + 1 := by simpa using ha.symm
        subst hk
        have he : (l :: ls) ++ b = l :: (ls ++ b) := rfl
        rw [he]
        simp [firstIdx, hp, ih k' hfi]

/-- Count of leading `#` characters, i.e. what `/^#+/` (or `/^#{1,6}/` with
backtracking) measures at the start of a line. -/
def leadingHashes (l : List Char) : Nat := (l.takeWhile (· == '#')).length

/-- Case-insensitive literal-prefix test: `pat` must already be lower-case. -/
def ciPrefix : List Char → List Char → Bool
  | [], _ => true
  | _ :: _, [] => false
  | p :: ps, c :: cs => (c.toLower == p) && ciPrefix ps cs

/-- The test `/^#{1,6}\s*timing\s*tracking/i.test(line)`: one to six leading
`#`, optional whitespace, `timing`, optional whitespace, `tracking`, with no
end anchor.  (Seven or more `#` cannot match: after any 1–6 of them the next
character is `#`, which is neither whitespace nor `t`.) -/
def isTimingHeader (l : List Char) : Bool :=
  let n := leadingHashes l
  let rest := (l.drop n).dropWhile jsWs
  decide (1 ≤ n) && decide (n ≤ 6) && ciPrefix "timing".data rest &&
    ciPrefix "tracking".data ((rest.drop 6).dropWhile jsWs)

/-- The test `/^#{2,6}\s*reflection/i.test(line)`. -/
def isReflectionHeader (l : List Char) : Bool :=
  let n := leadingHashes l
  let rest := (l.drop n).dropWhile jsWs
  decide (2 ≤ n) && decide (n ≤ 6) && ciPrefix "reflection".data rest

/-- The header-terminating test used by every end-of-section scan: a line
matching `/^#+/` whose run length is at most `level`. -/
def isSectionEnd (level : Nat) (l : List Char) : Bool :=
  decide (0 < leadingHashes l) && decide (leadingHashes l ≤ level)

/-- The dynamically built test `new RegExp('^#{1,6}\\s*NAME\\s*$','i')` of
`findAfterSpecificHeader`, with the header name taken as literal text. -/
def isNamedHeader (name : List Char) (l : List Char) : Bool :=
  let n := leadingHashes l
  let rest := (l.drop n).dropWhile jsWs
  decide (1 ≤ n) && decide (n ≤ 6) && ciPrefix (name.map Char.toLower) rest &&
    (rest.drop name.length).all jsWs

/-- `String.prototype.trim()` (restricted to the modelled whitespace class). -/
def jsTrim (l : List Char) : List Char :=
  ((l.dropWhile jsWs).reverse.dropWhile jsWs).reverse

/-- `TimingSectionInfo` from `types.ts`; the source field `exists` is renamed
`sectionExists` because `exists` is reserved in Lean. -/
structure TimingSectionInfo where
  sectionExists : Bool
  startLine : Int
  endLine : Int
  content : String
  headerLevel : Nat
  deriving DecidableEq, Repr

/-- The header level read off a matched line, with the source's
`headerMatch ? headerMatch[0].length : 2` fallback (kept although every
matched line starts with `#`). -/
def headerLevelAt (lines : List (List Char)) (i : Nat) : Nat :=
  if 0 < leadingHashes (lines.getD i []) then leadingHashes (lines.getD i []) else 2

/-- The end-of-section scan shared by the source's loops: the first line from
`i+1` on that is a header of depth `≤ level`, else `lines.length`. -/
def sectionEndFrom (lines : List (List Char)) (i level : Nat) : Nat :=
  match firstIdx (isSectionEnd level) (lines.drop (i+1)) with
  | some k => i + 1 + k
  | none => lines.length

/-- `TimingSectionManager.findTimingSection`.  The two source loops (find the
header, then find the first line from `startLine+1` on whose `/^#+/` run is
`≤ headerLevel`) are rendered with `firstIdx` and `sectionEndFrom`. -/
def findTimingSection (content : String) : TimingSectionInfo :=
  let lines := splitCh '\n' content.data
  match firstIdx isTimingHeader lines with
  | none => ⟨false, -1, -1, "", 0⟩
  | some s =>
    let headerLevel := headerLevelAt lines s
    let endLine := sectionEndFrom lines s headerLevel
    ⟨true, Int.ofNat s, Int.ofNat endLine,
      ⟨joinCh '\n' ((lines.take endLine).drop s)⟩, headerLevel⟩

/-- `TimingSectionManager.extractReflectionContent`: find the first
`/^#{2,6}\s*reflection/i` line of the section content, cut at the next header
of depth `≤` its own, join, trim; `reflectionText || null` becomes
`Option`. -/
def extractReflectionContent (sectionContent : String) : Option String :=
  let lines := splitCh '\n' sectionContent.data
  match firstIdx isReflectionHeader lines with
  | none => none
  | some rs =>
    let re := sectionEndFrom lines rs (headerLevelAt lines rs)
    let txt := jsTrim (joinCh '\n' ((lines.take re).drop (rs+1)))
    if txt = [] then none else some ⟨txt⟩

/-- `TimeEntry` from `types.ts`.  `duration` is an integer after the
transformer's coercion; `productivity` is optional. -/
structure TimeEntry where
  startTime : String
  endTime : String
  duration : Int
  application : String
  category : Option String
  title : Option String
  productivity : Option Int
  deriving DecidableEq, Repr

/-- `TimeSummary` from `types.ts`; the JS `Map`s become insertion-ordered
association lists.  `byHour` keys are `Option Int` with `none` playing the
role of a `NaN` key. -/
structure TimeSummary where
  totalTime : Int
  byApplication : List (String × Int)
  byCategory : List (String × Int)
  byHour : List (Option Int × Int)
  deriving DecidableEq, Repr

/-- `DailyTimeData` from `types.ts`. -/
structure DailyTimeData where
  date : String
  entries : List TimeEntry
  summary : TimeSummary
  deriving DecidableEq, Repr

/-- `Map.prototype.get`. -/
def mapGet {κ ν : Type} [DecidableEq κ] (key : κ) : List (κ × ν) → Option ν
  | [] => none
  | (k, x) :: m => if k = key then some x else mapGet key m

/-- `Map.prototype.set`: updates an existing key in place (keeping insertion
order) or appends a new binding. -/
def mapSet {κ ν : Type} [DecidableEq κ] (key : κ) (x : ν) : List (κ × ν) → List (κ × ν)
  | [] => [(key, x)]
  | (k, y) :: m => if k = key then (k, x) :: m else (k, y) :: mapSet key x m

/-- A loosely-typed JS field value, for the `duration` and `productivity`
fields of a raw entry (`number`, `string`, or absent). -/
inductive JsValue where
  | undef : JsValue
  | num : ℚ → JsValue
  | str : String → JsValue
  deriving DecidableEq, Repr

/-- One element of `TimingRawData.entries`, with `Option` for possibly
missing string fields (`none` = absent, `some ""` = present but falsy). -/
structure RawEntry where
  startTime : Option String
  endTime : Option String
  application : Option String
  category : Option String
  title : Option String
  duration : JsValue
  productivity : JsValue
  deriving DecidableEq, Repr

/-- `TimingRawData` as far as the transformer inspects it: `entries := none`
models a non-array `entries` field. -/
structure TimingRawData where
  date : Option String
  entries : Option (List RawEntry)
  deriving DecidableEq, Repr

/-- JS truthiness of a possibly-missing string. -/
def strTruthy : Option String → Bool
  | none => false
  | some s => !(s == "")

/-- JS truthiness of a loosely-typed value (`0`, `""` and absent are falsy);
a rational is zero exactly when its numerator is. -/
def jsTruthy : JsValue → Bool
  | .undef => false
  | .num q => !(q.num == 0)
  | .str s => !(s == "")

/-- `Math.max(a, b)` on integers. -/
def maxInt (a b : Int) : Int := if a < b then b else a

/-- `Math.min(a, b)` on integers. -/
def minInt (a b : Int) : Int := if a < b then a else b

/-- `Math.round` (round half toward positive infinity, as in JS):
`⌊q + 1/2⌋`, computed on the rational's raw numerator and denominator so it
evaluates by kernel reduction. -/
def jsRound (q : ℚ) : Int := Int.fdiv (2 * q.num + (q.den : Int)) (2 * (q.den : Int))

/-- `parseInt(s, 10)`: skip leading whitespace, optional sign, maximal digit
run; `none` models `NaN`. -/
def jsParseInt (s : String) : Option Int :=
  let cs := s.data.dropWhile jsWs
  let signed : Int × List Char :=
    match cs with
    | '-' :: t => (-1, t)
    | '+' :: t => (1, t)
    | t => (1, t)
  let ds := signed.2.takeWhile (·.isDigit)
  if ds.isEmpty then none
  else some (signed.1 * Int.ofNat (ds.foldl (fun a c => a * 10 + (c.toNat - 48)) 0))

/-- `DataTransformer.normalizeTime`: `/^(\d{1,2}):(\d{2}):(\d{2})$/`, hours
zero-padded to two digits; a failed match models the thrown error. -/
def normalizeTime (timeString : String) : Option String :=
  let cs := timeString.data
  let hs := cs.takeWhile (·.isDigit)
  let r1 := cs.drop hs.length
  if hs.length < 1 || 2 < hs.length then none
  else
    match r1 with
    | ':' :: r2 =>
      let ms := r2.takeWhile (·.isDigit)
      if ms.length ≠ 2 then none
      else
        match r2.drop 2 with
        | ':' :: r3 =>
          let ss := r3.takeWhile (·.isDigit)
          if ss.length = 2 ∧ r3.drop 2 = [] then
            some ⟨(if hs.length = 1 then '0' :: hs else hs) ++ ':' :: ms ++ ':' :: ss⟩
          else none
        | _ => none
    | _ => none

/-- `DataTransformer.parseDuration`: numbers are rounded and clamped at 0;
strings go through `parseInt`; anything else models the thrown error. -/
def parseDuration : JsValue → Option Int
  | .num q => some (maxInt 0 (jsRound q))
  | .str s =>
    match jsParseInt s with
    | some n => some (maxInt 0 n)
    | none => none
  | .undef => none

/-- `DataTransformer.parseProductivity`: clamp to `[0,5]`; non-numeric input
yields `undefined` (the entry is kept). -/
def parseProductivity : JsValue → Option Int
  | .num q => some (maxInt 0 (minInt 5 (jsRound q)))
  | .str s => (jsParseInt s).map (fun n => maxInt 0 (minInt 5 n))
  | .undef => none

/-- One step of `sanitizeString`'s `.replace(/\s+/g, ' ')`: collapse each
whitespace run to a single space. -/
def collapseWs : List Char → List Char
  | [] => []
  | [c] => if jsWs c then [' '] else [c]
  | c :: d :: cs =>
    if jsWs c then
      if jsWs d then collapseWs (d :: cs) else ' ' :: collapseWs (d :: cs)
    else c :: collapseWs (d :: cs)

/-- `DataTransformer.sanitizeString` on a (guaranteed) string input: trim,
replace CR/LF/TAB by spaces, collapse whitespace runs, truncate to 200. -/
def sanitizeString (input : String) : String :=
  ⟨(collapseWs ((jsTrim input.data).map
      (fun c => if c = '\r' ∨ c = '\n' ∨ c = '\t' then ' ' else c))).take 200⟩

/-- `DataTransformer.validateRawEntry`: missing/falsy time or application
fields, or a duration that is not a non-negative JS number, throw.  A
rational is negative exactly when its numerator is, denominators being
positive. -/
def validateRawEntry (rawEntry : RawEntry) : Option Unit :=
  if !(strTruthy rawEntry.startTime && strTruthy rawEntry.endTime) then none
  else if !(strTruthy rawEntry.application) then none
  else
    match rawEntry.duration with
    | .num q => if q.num < 0 then none else some ()
    | _ => none

/-- `DataTransformer.transformEntry`; the `try/catch` that turns any thrown
error into `null` becomes the `Option` monad. -/
def transformEntry (rawEntry : RawEntry) : Option TimeEntry := do
  let _ ← validateRawEntry rawEntry
  let st ← normalizeTime ((rawEntry.startTime).getD "")
  let et ← normalizeTime ((rawEntry.endTime).getD "")
  let d ← parseDuration rawEntry.duration
  some
    { startTime := st
      endTime := et
      duration := d
      application := sanitizeString ((rawEntry.application).getD "")
      category :=
        if strTruthy rawEntry.category then some (sanitizeString ((rawEntry.category).getD ""))
        else none
      title :=
        if strTruthy rawEntry.title then some (sanitizeString ((rawEntry.title).getD ""))
        else none
      productivity :=
        if jsTruthy rawEntry.productivity then parseProductivity rawEntry.productivity
        else none }

/-- Lexicographic char-list order: the effect of
`a.startTime.localeCompare(b.startTime)` on the ASCII `HH:MM:SS` strings
involved. -/
def lexLe : List Char → List Char → Bool
  | [], _ => true
  | _ :: _, [] => false
  | a :: as, b :: bs => if a = b then lexLe as bs else decide (a < b)

/-- Stable insertion of `x` behind every already-placed element `y` with
`le y x`. -/
def insertSorted {α : Type} (le : α → α → Bool) (x : α) : List α → List α
  | [] => [x]
  | y :: ys => if le y x then y :: insertSorted le x ys else x :: y :: ys

/-- A stable comparator sort, modelling `Array.prototype.sort`. -/
def jsSortBy {α : Type} (le : α → α → Bool) (l : List α) : List α :=
  l.foldl (fun acc x => insertSorted le x acc) []

/-- `DataTransformer.transformEntries`: transform each raw entry, drop the
failures, sort ascending by `startTime`. -/
def transformEntries (rawEntries : List RawEntry) : List TimeEntry :=
  jsSortBy (fun a b => lexLe a.startTime.data b.startTime.data)
    ((rawEntries.map transformEntry).filterMap id)

/-- `DataTransformer.extractHour`: `parseInt(timeString.split(':')[0], 10)`;
`none` models `NaN`. -/
def extractHour (timeString : String) : Option Int :=
  jsParseInt ⟨timeString.data.takeWhile (· ≠ ':')⟩

/-- The body of `calculateSummary`'s loop: add one entry's duration to the
total and to the three maps (the category only when truthy). -/
def summaryStep (s : TimeSummary) (e : TimeEntry) : TimeSummary :=
  { totalTime := s.totalTime + e.duration
    byApplication :=
      mapSet e.application ((mapGet e.application s.byApplication).getD 0 + e.duration)
        s.byApplication
    byCategory :=
      match e.category with
      | some c =>
        if c ≠ "" then
          mapSet c ((mapGet c s.byCategory).getD 0 + e.duration) s.byCategory
        else s.byCategory
      | none => s.byCategory
    byHour :=
      mapSet (extractHour e.startTime)
        ((mapGet (extractHour e.startTime) s.byHour).getD 0 + e.duration) s.byHour }

/-- `DataTransformer.calculateSummary`: one pass accumulating the total and
the three maps; only truthy categories are counted. -/
def calculateSummary (entries : List TimeEntry) : TimeSummary :=
  entries.foldl summaryStep ⟨0, [], [], []⟩

/-- Days per month with the Gregorian leap rule, for the calendar validity
that `new Date('YYYY-MM-DD')` enforces on ISO date-only strings. -/
def daysInMonth (y m : Nat) : Nat :=
  if m = 2 then
    if (y % 4 = 0 ∧ y % 100 ≠ 0) ∨ y % 400 = 0 then 29 else 28
  else if m = 4 ∨ m = 6 ∨ m = 9 ∨ m = 11 then 30
  else 31

/-- `DataTransformer.isValidDate`: the strict `^\d{4}-\d{2}-\d{2}$` pattern
together with `!isNaN(new Date(s).getTime())`, which for such strings is
exactly calendar validity. -/
def isValidDate (dateString : String) : Bool :=
  match dateString.data with
  | [y1, y2, y3, y4, '-', m1, m2, '-', d1, d2] =>
    [y1, y2, y3, y4, m1, m2, d1, d2].all (·.isDigit) &&
      (let y := ((y1.toNat - 48) * 10 + (y2.toNat - 48)) * 100 +
                ((y3.toNat - 48) * 10 + (y4.toNat - 48))
       let m := (m1.toNat - 48) * 10 + (m2.toNat - 48)
       let d := (d1.toNat - 48) * 10 + (d2.toNat - 48)
       decide (1 ≤ m) && decide (m ≤ 12) && decide (1 ≤ d) &&
         decide (d ≤ daysInMonth y m))
  | _ => false

/-- `DataTransformer.validateRawData` over a possibly-null payload; each
thrown `Error` becomes `Except.error` with its message. -/
def validateRawData (rawData : Option TimingRawData) : Except String Unit :=
  match rawData with
  | none => .error "Raw data is null or undefined"
  | some r =>
    if !(strTruthy r.date) then .error "Raw data missing date field"
    else if !(isValidDate (r.date.getD "")) then .error "Invalid date format"
    else
      match r.entries with
      | none => .error "Raw data entries must be an array"
      | some _ => .ok ()

/-- `DataTransformer.transformTimingData`: validate, transform the entries,
aggregate.  (The last arm is unreachable: `validateRawData none` errors.) -/
def transformTimingData (rawData : Option TimingRawData) : Except String DailyTimeData :=
  match validateRawData rawData, rawData with
  | .error e, _ => .error e
  | .ok _, some r =>
    let entries := transformEntries (r.entries.getD [])
    .ok ⟨r.date.getD "", entries, calculateSummary entries⟩
  | .ok _, none => .error "Raw data is null or undefined"

/-- `'12h' | '24h'` from the settings type. -/
inductive TimeFormat where
  | h12 : TimeFormat
  | h24 : TimeFormat
  deriving DecidableEq, Repr

/-- `'application' | 'category' | 'both'` from the settings type. -/
inductive GroupBy where
  | application : GroupBy
  | category : GroupBy
  | both : GroupBy
  deriving DecidableEq, Repr

/-- `'top' | 'bottom' | 'after-header' | 'custom'` from the settings type. -/
inductive SectionLocation where
  | top : SectionLocation
  | bottom : SectionLocation
  | afterHeader : SectionLocation
  | custom : SectionLocation
  deriving DecidableEq, Repr

/-- The slice of `TimingPluginSettings` the section manager reads.  The
optional `afterHeaderName` keeps its JS `|| 'Tasks'` default semantics via
`""` for absent. -/
structure TimingPluginSettings where
  timingSectionLocation : SectionLocation
  afterHeaderName : String
  includeTimeline : Bool
  includeReflection : Bool
  groupBy : GroupBy
  timeFormat : TimeFormat
  minimumDuration : Int
  deriving DecidableEq, Repr

/-- `DataTransformer.formatDuration`.  `Math.floor` on the non-negative
quotients is `Int.fdiv`; JS `%` agrees with `Int.emod` on them. -/
def formatDuration (seconds : Int) : String :=
  if seconds < 60 then toString seconds ++ "s"
  else
    let minutes := seconds.fdiv 60
    if minutes < 60 then toString minutes ++ "m"
    else
      let hours := minutes.fdiv 60
      let remainingMinutes := minutes % 60
      if remainingMinutes = 0 then toString hours ++ "h"
      else toString hours ++ "h " ++ toString remainingMinutes ++ "m"

/-- `number.toString()` for a possibly-`NaN` value. -/
def numKeyToString : Option Int → String
  | some n => toString n
  | none => "NaN"

/-- `String.prototype.padStart(2, '0')`. -/
def padStart2 (s : String) : String :=
  if s.length < 2 then ⟨List.replicate (2 - s.length) '0' ++ s.data⟩ else s

/-- `DataTransformer.formatTime`. -/
def formatTime (timeString : String) (format : TimeFormat) : String :=
  match format with
  | .h24 => timeString
  | .h12 =>
    let parts := splitCh ':' timeString.data
    let hour24 := jsParseInt ⟨parts.getD 0 []⟩
    let minutes : String :=
      match parts.drop 1 with
      | m :: _ => ⟨m⟩
      | [] => "undefined"
    let hour12 : Option Int :=
      match hour24 with
      | some h => some (if h = 0 then 12 else if 12 < h then h - 12 else h)
      | none => none
    let ampm : String :=
      match hour24 with
      | some h => if h < 12 then "AM" else "PM"
      | none => "PM"
    numKeyToString hour12 ++ ":" ++ minutes ++ " " ++ ampm

/-- `DataTransformer.calculatePercentage`:
`Math.round(value / total * 100 * 10) / 10`, with `0` for a zero total.
Modelled as the integer count of tenths of a percent (the source value is
this divided by 10); the rounding is `⌊value*1000/total + 1/2⌋` expressed
over integers. -/
def calculatePercentage (value total : Int) : Int :=
  if total = 0 then 0 else Int.fdiv (2 * (value * 1000) + total) (2 * total)

/-- JS number-to-string for the one-decimal values `calculatePercentage`
produces (integers print without a decimal point), taking the tenths
count. -/
def pctToString (tenths : Int) : String :=
  if tenths.tmod 10 = 0 then toString (tenths.tdiv 10)
  else toString (tenths.tdiv 10) ++ "." ++ toString ((tenths.tmod 10).natAbs)

/-- `DataTransformer.getMostUsedApplication`: linear scan keeping the first
strictly-largest time, starting from `('', 0)`. -/
def getMostUsedApplication (summary : TimeSummary) : Option (String × Int) :=
  if summary.byApplication.isEmpty then none
  else some (summary.byApplication.foldl
    (fun acc kv => if acc.2 < kv.2 then kv else acc) ("", 0))

/-- `DataTransformer.getMostProductiveHour`, same scan over `byHour` starting
from hour `0`. -/
def getMostProductiveHour (summary : TimeSummary) : Option (Option Int × Int) :=
  if summary.byHour.isEmpty then none
  else some (summary.byHour.foldl
    (fun acc kv => if acc.2 < kv.2 then kv else acc) (some 0, 0))

/-- `DataTransformer.filterEntriesByMinimumDuration`. -/
def filterEntriesByMinimumDuration (entries : List TimeEntry) (minimumSeconds : Int) :
    List TimeEntry :=
  entries.filter (fun e => minimumSeconds ≤ e.duration)

/-- `'#'.repeat(n)`. -/
def hashes (n : Nat) : String := ⟨List.replicate n '#'⟩

/-- `TimingSectionManager.generateSummarySection`. -/
def generateSummarySection (settings : TimingPluginSettings) (timingData : DailyTimeData)
    (h2 : String) : String :=
  let totalTime := formatDuration timingData.summary.totalTime
  let c1 := h2 ++ " Summary\n\n" ++ "- **Total tracked time**: " ++ totalTime ++ "\n"
  let c2 :=
    match getMostUsedApplication timingData.summary with
    | some app =>
      c1 ++ "- **Most used app**: " ++ app.1 ++ " (" ++ formatDuration app.2 ++ ")\n"
    | none => c1
  let c3 :=
    match getMostProductiveHour timingData.summary with
    | some mph =>
      c2 ++ "- **Most productive hour**: " ++
        formatTime (padStart2 (numKeyToString mph.1) ++ ":00:00") settings.timeFormat ++
        " (" ++ formatDuration mph.2 ++ ")\n"
    | none => c2
  c3 ++ "\n"

/-- `TimingSectionManager.generateApplicationSection`: table of applications
sorted by descending time (`.sort((a,b) => b[1]-a[1])`, stable), keeping rows
meeting the minimum duration. -/
def generateApplicationSection (settings : TimingPluginSettings) (timingData : DailyTimeData)
    (h2 : String) : String :=
  let base := h2 ++ " By Application\n\n"
  if timingData.summary.byApplication.isEmpty then
    base ++ "*No application data available*\n\n"
  else
    let hdr := base ++ "| Application | Time | Percentage |\n" ++
      "|-------------|------|------------|\n"
    let sortedApps := jsSortBy (fun a b => decide (b.2 ≤ a.2)) timingData.summary.byApplication
    (sortedApps.foldl
      (fun acc kv =>
        if settings.minimumDuration ≤ kv.2 then
          acc ++ "| " ++ kv.1 ++ " | " ++ formatDuration kv.2 ++ " | " ++
            pctToString (calculatePercentage kv.2 timingData.summary.totalTime) ++ "% |\n"
        else acc)
      hdr) ++ "\n"

/-- `TimingSectionManager.generateCategorySection`. -/
def generateCategorySection (settings : TimingPluginSettings) (timingData : DailyTimeData)
    (h2 : String) : String :=
  let base := h2 ++ " By Category\n\n"
  if timingData.summary.byCategory.isEmpty then
    base ++ "*No category data available*\n\n"
  else
    let hdr := base ++ "| Category | Time | Percentage |\n" ++
      "|----------|------|------------|\n"
    let sortedCategories := jsSortBy (fun a b => decide (b.2 ≤ a.2)) timingData.summary.byCategory
    (sortedCategories.foldl
      (fun acc kv =>
        if settings.minimumDuration ≤ kv.2 then
          acc ++ "| " ++ kv.1 ++ " | " ++ formatDuration kv.2 ++ " | " ++
            pctToString (calculatePercentage kv.2 timingData.summary.totalTime) ++ "% |\n"
        else acc)
      hdr) ++ "\n"

/-- `TimingSectionManager.generateTimelineSection`. -/
def generateTimelineSection (settings : TimingPluginSettings) (timingData : DailyTimeData)
    (h2 : String) : String :=
  let base := h2 ++ " Timeline\n\n"
  if timingData.entries.isEmpty then
    base ++ "*No timeline data available*\n\n"
  else
    let filteredEntries :=
      filterEntriesByMinimumDuration timingData.entries settings.minimumDuration
    if filteredEntries.isEmpty then
      base ++ "*No activities meet the minimum duration threshold*\n\n"
    else
      (filteredEntries.foldl
        (fun acc e =>
          let l1 := "- **" ++ formatTime e.startTime settings.timeFormat ++ " - " ++
            formatTime e.endTime settings.timeFormat ++ "** (" ++
            formatDuration e.duration ++ "): " ++ e.application
          let l2 :=
            if strTruthy e.category then l1 ++ " (" ++ e.category.getD "" ++ ")" else l1
          let l3 :=
            if strTruthy e.title then l2 ++ " - " ++ e.title.getD "" else l2
          acc ++ l3 ++ "\n")
        base) ++ "\n"

/-- `TimingSectionManager.generateReflectionSection`: re-inject a truthy
preserved text, otherwise emit the fixed placeholder comment. -/
def generateReflectionSection (existingReflection : Option String) (h2 : String) : String :=
  let c := h2 ++ " Reflection\n\n"
  if strTruthy existingReflection then c ++ existingReflection.getD "" ++ "\n\n"
  else c ++ "<!-- Add your daily time usage reflection here -->\n\n"

/-- `TimingSectionManager.generateTimingContent`: header plus summary, then
the sections enabled by the settings. -/
def generateTimingContent (settings : TimingPluginSettings) (timingData : DailyTimeData)
    (existingReflection : Option String) (headerLevel : Nat) : String :=
  let h := hashes headerLevel
  let h2 := hashes (headerLevel + 1)
  let c0 := h ++ " Timing Tracking\n\n"
  let c1 := c0 ++ generateSummarySection settings timingData h2
  let c2 :=
    if settings.groupBy = .application ∨ settings.groupBy = .both then
      c1 ++ generateApplicationSection settings timingData h2
    else c1
  let c3 :=
    if settings.groupBy = .category ∨ settings.groupBy = .both then
      c2 ++ generateCategorySection settings timingData h2
    else c2
  let c4 :=
    if settings.includeTimeline then c3 ++ generateTimelineSection settings timingData h2
    else c3
  if settings.includeReflection then c4 ++ generateReflectionSection existingReflection h2
  else c4

/-- `line.startsWith('# ')`. -/
def startsWithH1 (l : List Char) : Bool :=
  match l with
  | '#' :: ' ' :: _ => true
  | _ => false

/-- `TimingSectionManager.findAfterTitle`: character offset just past the
first `# ` line, or `0`. -/
def findAfterTitle (content : String) : Nat :=
  let lines := splitCh '\n' content.data
  match firstIdx startsWithH1 lines with
  | some i => (joinCh '\n' (lines.take (i+1))).length + 1
  | none => 0

/-- `TimingSectionManager.findAfterSpecificHeader`: find the named header,
then the next header of depth `≤` its own; insert before it, or directly
after the header line when the scan finds nothing, or at the end of the
document when the name is absent. -/
def findAfterSpecificHeader (content : String) (headerName : String) : Nat :=
  let lines := splitCh '\n' content.data
  match firstIdx (isNamedHeader headerName.data) lines with
  | none => content.data.length
  | some i =>
    match firstIdx (isSectionEnd (headerLevelAt lines i)) (lines.drop (i+1)) with
    | some k => (joinCh '\n' (lines.take (i+1+k))).length + 1
    | none => (joinCh '\n' (lines.take (i+1))).length + 1

/-- `TimingSectionManager.findInsertionPoint`; `custom` falls into the
switch's `default` arm. -/
def findInsertionPoint (settings : TimingPluginSettings) (content : String) : Nat :=
  match settings.timingSectionLocation with
  | .top => findAfterTitle content
  | .bottom => content.data.length
  | .afterHeader =>
    findAfterSpecificHeader content
      (if settings.afterHeaderName = "" then "Tasks" else settings.afterHeaderName)
  | .custom => content.data.length

/-- `before.endsWith('\n\n')`. -/
def endsWith2Nl (l : List Char) : Bool :=
  match l.reverse with
  | c1 :: c2 :: _ => c1 == '\n' && c2 == '\n'
  | _ => false

/-- `before.endsWith('\n')`. -/
def endsWithNl (l : List Char) : Bool :=
  match l.reverse with
  | c :: _ => c == '\n'
  | _ => false

/-- `after.startsWith('\n')`. -/
def startsWithNl (l : List Char) : Bool :=
  match l with
  | c :: _ => c == '\n'
  | _ => false

/-- `TimingSectionManager.insertAtPosition` (JS `substring` clamps out-of-range
positions, as `take`/`drop` do). -/
def insertAtPosition (content : String) (position : Nat) (insertContent : String) : String :=
  let before := content.data.take position
  let after := content.data.drop position
  let spacing : List Char :=
    if endsWith2Nl before then [] else if endsWithNl before then ['\n'] else ['\n', '\n']
  let endSpacing : List Char := if startsWithNl after then [] else ['\n']
  ⟨before ++ spacing ++ insertContent.data ++ endSpacing ++ after⟩

/-- `TimingSectionManager.insertNewSection` (pure core: the vault read/write
wrappers drop away). -/
def insertNewSection (content : String) (settings : TimingPluginSettings)
    (timingData : DailyTimeData) : String :=
  let insertionPoint := findInsertionPoint settings content
  let timingContent := generateTimingContent settings timingData none 2
  insertAtPosition content insertionPoint timingContent

/-- `TimingSectionManager.replaceExistingSection` (pure core): regenerate the
section at the matched header level, preserving extracted reflection text,
and splice it over lines `[startLine, endLine)`. -/
def replaceExistingSection (content : String) (sectionInfo : TimingSectionInfo)
    (settings : TimingPluginSettings) (timingData : DailyTimeData) : String :=
  let lines := splitCh '\n' content.data
  let reflectionContent := extractReflectionContent sectionInfo.content
  let newTimingContent :=
    generateTimingContent settings timingData reflectionContent sectionInfo.headerLevel
  ⟨joinCh '\n'
    (lines.take sectionInfo.startLine.toNat ++
      splitCh '\n' newTimingContent.data ++
      lines.drop sectionInfo.endLine.toNat)⟩

/-- `TimingSectionManager.updateTimingSection` (pure core, the `synchronize`
operation of the specification): replace the existing section or insert a new
one at the configured anchor. -/
def synchronize (content : String) (settings : TimingPluginSettings)
    (timingData : DailyTimeData) : String :=
  let sectionInfo := findTimingSection content
  if sectionInfo.sectionExists then
    replaceExistingSection content sectionInfo settings timingData
  else
    insertNewSection content settings timingData

/-! ### Definitions used to state the verified properties -/

/-- The line decomposition a document is scanned under. -/
def docLines (s : String) : List (List Char) := splitCh '\n' s.data

/-- Well-formedness of a rendered section body at header level `level`: its
first line is a matching section header of exactly that depth, and no later
line matches the title pattern or is a header of depth `≤ level`.  Every body
`generateTimingContent` renders from newline-free data has this shape; it is
checked by evaluation where needed. -/
def bodyWF (body : String) (level : Nat) : Bool :=
  match docLines body with
  | [] => false
  | h :: t =>
    isTimingHeader h && (leadingHashes h == level) &&
      t.all (fun l => !isTimingHeader l && !isSectionEnd level l)

/-- The header level `synchronize` renders at: the matched section's level, or
`2` on the insertion path. -/
def syncLevel (content : String) : Nat :=
  if (findTimingSection content).sectionExists then (findTimingSection content).headerLevel
  else 2

/-- The rendered body `synchronize` splices into `content`. -/
def syncBody (content : String) (settings : TimingPluginSettings)
    (timingData : DailyTimeData) : String :=
  generateTimingContent settings timingData
    (if (findTimingSection content).sectionExists then
      extractReflectionContent (findTimingSection content).content
    else none)
    (syncLevel content)

/-- A section content whose reflection sub-section exists but has a body that
trims to nothing (empty or whitespace-only), phrased over the same scans the
extractor performs. -/
def reflectionBodyBlank (sectionContent : String) : Bool :=
  let lines := splitCh '\n' sectionContent.data
  match firstIdx isReflectionHeader lines with
  | none => false
  | some rs =>
    let re := sectionEndFrom lines rs (headerLevelAt lines rs)
    jsTrim (joinCh '\n' ((lines.take re).drop (rs+1))) == []

/-- The locator contract of the specification, for a document in which the
section is found: `startLine` is the first matching line's index, `endLine`
is the first position at or after `startLine+1` holding a header of depth
`≤` the matched depth (exclusive bound, defaulting to the line count), and
`content` is the joined line range between them. -/
def locatorContract (content : String) : Prop :=
  ∃ s e : Nat,
    firstIdx isTimingHeader (docLines content) = some s ∧
    (findTimingSection content).startLine = Int.ofNat s ∧
    (findTimingSection content).endLine = Int.ofNat e ∧
    (findTimingSection content).headerLevel =
      leadingHashes ((docLines content).getD s []) ∧
    (∀ j, j < s → ¬ isTimingHeader ((docLines content).getD j [])) ∧
    s < e ∧ e ≤ (docLines content).length ∧
    (∀ j, s < j → j < e →
      ¬ isSectionEnd (findTimingSection content).headerLevel
          ((docLines content).getD j [])) ∧
    (e < (docLines content).length →
      isSectionEnd (findTimingSection content).headerLevel
        ((docLines content).getD e [])) ∧
    (findTimingSection content).content =
      ⟨joinCh '\n' (((docLines content).take e).drop s)⟩

/-- Modelled from the spec: the structural-validity condition under which the
transform is claimed to succeed — a non-null payload with a truthy `date`
passing the strict pattern-plus-calendar check and a list-shaped `entries`
field. -/
def structurallyValid (rawData : Option TimingRawData) : Bool :=
  match rawData with
  | none => false
  | some r => strTruthy r.date && isValidDate (r.date.getD "") && r.entries.isSome

/-- Map lookup defaulted to `0`, for stating the aggregation sums. -/
def lookupD {κ : Type} [DecidableEq κ] (key : κ) (m : List (κ × Int)) : Int :=
  (mapGet key m).getD 0

/-- The category label an entry contributes to the `byCategory` map: present
only when the field is truthy. -/
def truthyCategory (e : TimeEntry) : Option String :=
  match e.category with
  | some c => if c ≠ "" then some c else none
  | none => none

/-- `Except.isOk`. -/
def exceptOk {ε α : Type} : Except ε α → Bool
  | .ok _ => true
  | .error _ => false

instance exceptDecEq {ε α : Type} [DecidableEq ε] [DecidableEq α] :
    DecidableEq (Except ε α) := fun x y =>
  match x, y with
  | .error a, .error b =>
    if h : a = b then isTrue (congrArg Except.error h)
    else isFalse (fun hc => h (Except.error.inj hc))
  | .ok a, .ok b =>
    if h : a = b then isTrue (congrArg Except.ok h)
    else isFalse (fun hc => h (Except.ok.inj hc))
  | .error _, .ok _ => isFalse (fun hc => Except.noConfusion hc)
  | .ok _, .error _ => isFalse (fun hc => Except.noConfusion hc)

/-! ### Concrete fixtures for witnesses and counterexamples -/

/-- Plain settings: bottom placement, no timeline, no reflection. -/
def cfgBottom : TimingPluginSettings := ⟨.bottom, "", false, false, .application, .h24, 0⟩

/-- Same but with the reflection section enabled. -/
def cfgReflect : TimingPluginSettings := ⟨.bottom, "", false, true, .application, .h24, 0⟩

/-- After-header placement targeting the default `Tasks` header. -/
def cfgAfterTasks : TimingPluginSettings :=
  ⟨.afterHeader, "", false, false, .application, .h24, 0⟩

/-- A day with no entries. -/
def dataEmpty : DailyTimeData := ⟨"2024-01-15", [], ⟨0, [], [], []⟩⟩

/-- A document that already contains the target section. -/
def docExisting : String := "intro\n## Timing Tracking\nold stuff\n## Next\ntail"

/-- A document whose target section holds user reflection text. -/
def docReflect : String :=
  "intro\n## Timing Tracking\nold stuff\n### Reflection\nmy deep thought\n## Next\ntail"

/-- A document without the target section, for the insertion path. -/
def docPlain : String := "hello"

/-- A `Tasks` section with trailing body lines and no following header. -/
def docTasks : String := "## Tasks\n- a\n- b"

/-- A section content whose reflection sub-section is whitespace-only. -/
def docBlankReflect : String := "## Timing Tracking\nstuff\n### Reflection\n   \n\t\n"

/-- Raw entry: valid, numeric duration. -/
def rawA : RawEntry :=
  ⟨some "09:00:00", some "09:30:00", some "A", none, none, .num 1800, .undef⟩

/-- Raw entry: malformed (`duration: "abc"`). -/
def rawBad : RawEntry :=
  ⟨some "10:00:00", some "10:15:00", some "B", none, none, .str "abc", .undef⟩

/-- Raw entry: valid, starts earlier than `rawA` (exercises the sort). -/
def rawC : RawEntry :=
  ⟨some "8:00:00", some "08:05:00", some "C", some "Work", none, .num 300, .num 3⟩

/-- Raw entry: numeric-string duration, otherwise valid. -/
def rawStrDur : RawEntry :=
  ⟨some "09:00:00", some "09:30:00", some "A", none, none, .str "300", .undef⟩

/-- Raw entry: second interval on application `A` (the aggregation example). -/
def rawA2 : RawEntry :=
  ⟨some "10:00:00", some "10:10:00", some "A", none, none, .num 600, .undef⟩

/-- The three-entry payload of the malformed-entry-resilience example. -/
def payloadResilience : Option TimingRawData :=
  some ⟨some "2024-01-15", some [rawA, rawBad, rawC]⟩

/-- The two-entry payload of the aggregation example. -/
def payloadAggregation : Option TimingRawData :=
  some ⟨some "2024-01-15", some [rawA, rawA2]⟩

/-! ### Theorems -/

theorem isTimingHeader_nil : isTimingHeader [] = false := by decide

theorem isTimingHeader_levels (l : List Char) (h : isTimingHeader l = true) :
    1 ≤ leadingHashes l ∧ leadingHashes l ≤ 6 := by
  simp only [isTimingHeader, Bool.and_eq_true, decide_eq_true_eq] at h
  exact ⟨h.1.1.1, h.1.1.2⟩

theorem firstIdx_not_on_take (p : List Char → Bool) (ls : List (List Char)) (k : Nat)
    (h : firstIdx p ls = some k) : ∀ l ∈ ls.take k, ¬ p l := by
  induction ls generalizing k with
  | nil => simp
  | cons l ls ih =>
    by_cases hp : p l
    · have hk : k = 0 := by
        have := h
        simp [firstIdx, hp] at this
        omega
      subst hk
      simp
    · simp only [firstIdx, hp, if_false] at h
      cases hfi : firstIdx p ls with
      | none => rw [hfi] at h; simp at h
      | some k' =>
        rw [hfi] at h
        have hk : k = k' + 1 := by simpa using h.symm
        subst hk
        intro t ht
        rcases List.mem_cons.mp (by simpa using ht) with rfl | ht'
        · exact hp
        · exact ih k' hfi t ht'

theorem data_mk (cs : List Char) : (String.mk cs).data = cs := rfl

theorem docLines_mk (ls : List (List Char)) (h1 : ls ≠ []) (h2 : ∀ l ∈ ls, '\n' ∉ l) :
    docLines ⟨joinCh '\n' ls⟩ = ls := by
  simpa [docLines] using splitCh_joinCh '\n' ls h1 h2

theorem no_newline_in_docLines (s : String) : ∀ l ∈ docLines s, '\n' ∉ l :=
  sep_not_mem_splitCh '\n' s.data

theorem getD_mem_of_lt {α : Type} (l : List α) (j : Nat) (d : α) (h : j < l.length) :
    l.getD j d ∈ l := by
  rw [List.getD_eq_getElem?_getD, List.getElem?_eq_getElem h]
  exact List.getElem_mem h

theorem getD_drop (lines : List (List Char)) (i j : Nat) :
    (lines.drop i).getD j [] = lines.getD (i + j) [] := by
  rw [List.getD_eq_getElem?_getD, List.getD_eq_getElem?_getD, List.getElem?_drop]

theorem sectionEndFrom_spec (lines : List (List Char)) (s level : Nat)
    (hs : s < lines.length) :
    s < sectionEndFrom lines s level ∧
    sectionEndFrom lines s level ≤ lines.length ∧
    (∀ j, s < j → j < sectionEndFrom lines s level → ¬ isSectionEnd level (lines.getD j [])) ∧
    (sectionEndFrom lines s level < lines.length →
      isSectionEnd level (lines.getD (sectionEndFrom lines s level) [])) := by
  cases hfi : firstIdx (isSectionEnd level) (lines.drop (s+1)) with
  | none =>
    have heq : sectionEndFrom lines s level = lines.length := by
      unfold sectionEndFrom
      rw [hfi]
    have hall := (firstIdx_eq_none_iff _ _).mp hfi
    rw [heq]
    refine ⟨hs, Nat.le_refl _, ?_, ?_⟩
    · intro j hj1 hj2
      have hmem : lines.getD j [] ∈ lines.drop (s+1) := by
        have h1 : lines.getD j [] = (lines.drop (s+1)).getD (j - (s+1)) [] := by
          rw [getD_drop]
          congr 1
          omega
        rw [h1]
        apply getD_mem_of_lt
        rw [List.length_drop]
        omega
      exact hall _ hmem
    · intro h
      omega
  | some k =>
    have heq : sectionEndFrom lines s level = s + 1 + k := by
      unfold sectionEndFrom
      rw [hfi]
    obtain ⟨hk1, hk2, hk3⟩ := (firstIdx_eq_some_iff _ _ _).mp hfi
    rw [List.length_drop] at hk1
    rw [heq]
    refine ⟨by omega, by omega, ?_, ?_⟩
    · intro j hj1 hj2
      have h2 := hk3 (j - (s+1)) (by omega)
      rw [getD_drop] at h2
      have hje : s + 1 + (j - (s+1)) = j := by omega
      rw [hje] at h2
      exact h2
    · intro _
      rw [getD_drop] at hk2
      exact hk2

theorem findTimingSection_none (D : String)
    (h : firstIdx isTimingHeader (docLines D) = none) :
    findTimingSection D = ⟨false, -1, -1, "", 0⟩ := by
  have h' : firstIdx isTimingHeader (splitCh '\n' D.data) = none := h
  unfold findTimingSection
  simp only [h']

theorem findTimingSection_some (D : String) (s : Nat)
    (h : firstIdx isTimingHeader (docLines D) = some s) :
    findTimingSection D =
      ⟨true, Int.ofNat s,
        Int.ofNat (sectionEndFrom (docLines D) s (headerLevelAt (docLines D) s)),
        ⟨joinCh '\n'
          (((docLines D).take
              (sectionEndFrom (docLines D) s (headerLevelAt (docLines D) s))).drop s)⟩,
        headerLevelAt (docLines D) s⟩ := by
  have h' : firstIdx isTimingHeader (splitCh '\n' D.data) = some s := h
  unfold findTimingSection
  simp only [h']
  rfl

theorem synchronize_found (D : String) (settings : TimingPluginSettings)
    (data : DailyTimeData) (s : Nat)
    (h : firstIdx isTimingHeader (docLines D) = some s) :
    synchronize D settings data =
      ⟨joinCh '\n'
        ((docLines D).take s ++
          docLines (syncBody D settings data) ++
          (docLines D).drop
            (sectionEndFrom (docLines D) s (headerLevelAt (docLines D) s)))⟩ := by
  have hfts := findTimingSection_some D s h
  unfold synchronize
  rw [hfts]
  simp only [if_true]
  unfold replaceExistingSection
  rw [show splitCh '\n' D.data = docLines D from rfl]
  have hbody : generateTimingContent settings data
      (extractReflectionContent
        (⟨joinCh '\n'
          (((docLines D).take
              (sectionEndFrom (docLines D) s (headerLevelAt (docLines D) s))).drop s)⟩ :
          String))
      (headerLevelAt (docLines D) s) = syncBody D settings data := by
    unfold syncBody syncLevel
    rw [hfts]
    simp
  simp only [Int.toNat_ofNat]
  rw [hbody]
  rfl

theorem synchronize_notfound (D : String) (settings : TimingPluginSettings)
    (data : DailyTimeData)
    (h : firstIdx isTimingHeader (docLines D) = none) :
    synchronize D settings data =
      insertAtPosition D (findInsertionPoint settings D)
        (generateTimingContent settings data none 2) := by
  unfold synchronize
  rw [findTimingSection_none D h]
  simp only [Bool.false_eq_true, if_false]
  rfl

theorem sectionExists_some (D : String)
    (hex : (findTimingSection D).sectionExists = true) :
    ∃ s, firstIdx isTimingHeader (docLines D) = some s := by
  cases hfi : firstIdx isTimingHeader (docLines D) with
  | none => rw [findTimingSection_none D hfi] at hex; simp at hex
  | some s => exact ⟨s, rfl⟩

/-- Re-locating the section in the spliced line list
`lines.take s ++ GL ++ lines.drop e`: the header is found at `s` again, at the
same level, and the section ends exactly where the rendered lines do. -/
theorem refound_after_splice
    (lines : List (List Char)) (s e L : Nat)
    (g0 : List Char) (gt : List (List Char))
    (hs : s < lines.length)
    (hfirst : ∀ l ∈ lines.take s, ¬ isTimingHeader l)
    (hg0 : isTimingHeader g0 = true)
    (hg0L : leadingHashes g0 = L)
    (hL : 1 ≤ L)
    (hgt : ∀ l ∈ gt, ¬ isTimingHeader l ∧ ¬ isSectionEnd L l)
    (_hse : s + 1 ≤ e) (_hel : e ≤ lines.length)
    (hend : e < lines.length → isSectionEnd L (lines.getD e []) = true) :
    firstIdx isTimingHeader (lines.take s ++ (g0 :: gt) ++ lines.drop e) = some s ∧
    headerLevelAt (lines.take s ++ (g0 :: gt) ++ lines.drop e) s = L ∧
    sectionEndFrom (lines.take s ++ (g0 :: gt) ++ lines.drop e) s L = s + (gt.length + 1) := by
  set A := lines.take s with hA
  set B := lines.drop e with hB
  have hAlen : A.length = s := by
    rw [hA, List.length_take]
    omega
  refine ⟨?_, ?_, ?_⟩
  · have hfiA : firstIdx isTimingHeader A = none :=
      (firstIdx_eq_none_iff _ _).mpr hfirst
    have h1 : firstIdx isTimingHeader ((g0 :: gt) ++ B) = some 0 := by
      simp [firstIdx, hg0]
    rw [List.append_assoc, firstIdx_append_of_none _ _ _ hfiA, h1]
    simp [hAlen]
  · have hgd : (A ++ (g0 :: gt) ++ B).getD s [] = g0 := by
      rw [List.append_assoc, List.getD_append_right A _ _ s (by omega)]
      simp [hAlen]
    unfold headerLevelAt
    rw [hgd, hg0L]
    simp [Nat.lt_of_lt_of_le Nat.zero_lt_one hL]
  · have hdrop : (A ++ (g0 :: gt) ++ B).drop (s+1) = gt ++ B := by
      have hassoc : A ++ (g0 :: gt) ++ B = (A ++ [g0]) ++ (gt ++ B) := by simp
      have hlen1 : (A ++ [g0]).length = s + 1 := by simp [hAlen]
      rw [hassoc, ← hlen1, List.drop_left]
    have hfigt : firstIdx (isSectionEnd L) gt = none :=
      (firstIdx_eq_none_iff _ _).mpr (fun l hl => (hgt l hl).2)
    unfold sectionEndFrom
    rw [hdrop, firstIdx_append_of_none _ _ _ hfigt]
    rcases Nat.lt_or_ge e lines.length with helt | hege
    · have hBcons : B = lines.getD e [] :: lines.drop (e+1) := by
        rw [hB, List.drop_eq_getElem_cons helt]
        congr 1
        rw [List.getD_eq_getElem?_getD, List.getElem?_eq_getElem helt]
        rfl
      have h0 : firstIdx (isSectionEnd L) B = some 0 := by
        have hv := hend helt
        rw [List.getD_eq_getElem?_getD] at hv
        rw [hBcons]
        simp [firstIdx]
        exact hv
      rw [h0]
      simp
      omega
    · have hBnil : B = [] := by
        rw [hB]
        exact List.drop_of_length_le hege
      rw [hBnil]
      simp [firstIdx]
      exact hAlen

/-- C1 core argument, shared shape: after a replacement the document's lines
are exactly `take s ++ rendered ++ drop e`. -/
theorem docLines_synchronize_found (D : String) (settings : TimingPluginSettings)
    (data : DailyTimeData) (s : Nat)
    (h : firstIdx isTimingHeader (docLines D) = some s)
    (hne : docLines (syncBody D settings data) ≠ []) :
    docLines (synchronize D settings data) =
      (docLines D).take s ++ docLines (syncBody D settings data) ++
        (docLines D).drop
          (sectionEndFrom (docLines D) s (headerLevelAt (docLines D) s)) := by
  rw [synchronize_found D settings data s h]
  apply docLines_mk
  · intro hcon
    have h1 := (List.append_eq_nil.mp hcon).1
    exact hne (List.append_eq_nil.mp h1).2
  · intro l hl
    rcases List.mem_append.mp hl with hl1 | hl2
    · rcases List.mem_append.mp hl1 with hl3 | hl4
      · exact no_newline_in_docLines D l (List.take_subset _ _ hl3)
      · exact no_newline_in_docLines _ l hl4
    · exact no_newline_in_docLines D l (List.drop_subset _ _ hl2)

/-- C1 (amended): section synchronization is idempotent on documents that
already contain the target section, for a well-formed rendered body whose
preserved sub-section content regenerates itself (which holds in particular
when it carries no preserved content, only the placeholder).  On documents
without the section, a second pass drops the inserted spacing (see the
counterexample), so the claim is restricted to the replacement path. -/
theorem synchronize_idempotent_existing
    (D : String) (settings : TimingPluginSettings) (data : DailyTimeData)
    (hex : (findTimingSection D).sectionExists = true)
    (hwf : bodyWF (syncBody D settings data) (syncLevel D) = true)
    (hstable : generateTimingContent settings data
        (extractReflectionContent (syncBody D settings data)) (syncLevel D) =
      syncBody D settings data) :
    synchronize (synchronize D settings data) settings data =
      synchronize D settings data := by
  obtain ⟨s, hfi⟩ := sectionExists_some D hex
  have hfts := findTimingSection_some D s hfi
  set lines := docLines D with hlines
  set L := headerLevelAt lines s with hLdef
  set e := sectionEndFrom lines s L with hedef
  set gen := syncBody D settings data with hgendef
  have hsync : syncLevel D = L := by
    unfold syncLevel
    rw [hfts]
    simp
  rw [hsync] at hwf hstable
  cases hGL : docLines gen with
  | nil =>
    exfalso
    have hwf2 := hwf
    unfold bodyWF at hwf2
    rw [hGL] at hwf2
    simp at hwf2
  | cons g0 gt =>
  have hwf2 : (isTimingHeader g0 && (leadingHashes g0 == L) &&
      gt.all (fun l => !isTimingHeader l && !isSectionEnd L l)) = true := by
    have h := hwf
    unfold bodyWF at h
    rw [hGL] at h
    exact h
  simp only [Bool.and_eq_true, List.all_eq_true, beq_iff_eq, Bool.not_eq_true'] at hwf2
  obtain ⟨⟨hg0, hg0L⟩, htail⟩ := hwf2
  have htail' : ∀ l ∈ gt, ¬ isTimingHeader l ∧ ¬ isSectionEnd L l := by
    intro l hl
    have := htail l hl
    constructor
    · simp [this.1]
    · simp [this.2]
  obtain ⟨hs, hsP, _⟩ := (firstIdx_eq_some_iff _ _ _).mp hfi
  have hfirst := firstIdx_not_on_take _ _ _ hfi
  have hlh := isTimingHeader_levels _ hsP
  have hL1 : 1 ≤ L := by
    rw [hLdef]
    unfold headerLevelAt
    rcases Nat.eq_zero_or_pos (leadingHashes (lines.getD s [])) with h0 | hpos
    · omega
    · rw [if_pos hpos]
      exact hlh.1
  obtain ⟨hse, hel, _, hend⟩ := sectionEndFrom_spec lines s L hs
  have hRlines := docLines_synchronize_found D settings data s hfi (by rw [hGL]; simp)
  rw [← hgendef, ← hedef] at hRlines
  set R := synchronize D settings data with hRdef
  obtain ⟨hfiR0, hlevR0, hendR0⟩ :=
    refound_after_splice lines s e L g0 gt hs hfirst hg0 hg0L hL1 htail'
      (by omega) hel hend
  have hfiR : firstIdx isTimingHeader (docLines R) = some s := by
    rw [hRlines, hGL]
    exact hfiR0
  have hlevR : headerLevelAt (docLines R) s = L := by
    rw [hRlines, hGL]
    exact hlevR0
  have hendR : sectionEndFrom (docLines R) s L = s + (gt.length + 1) := by
    rw [hRlines, hGL]
    exact hendR0
  have hftsR := findTimingSection_some R s hfiR
  have hAlen : (lines.take s).length = s := by
    rw [List.length_take]
    omega
  have hABlen : (lines.take s ++ (g0 :: gt)).length = s + (gt.length + 1) := by
    simp [hAlen]
  have htake : (docLines R).take (s + (gt.length + 1)) = lines.take s ++ (g0 :: gt) := by
    rw [hRlines, hGL]
    exact List.take_left' hABlen
  have hdropE : (docLines R).drop (s + (gt.length + 1)) = lines.drop e := by
    rw [hRlines, hGL]
    exact List.drop_left' hABlen
  have htakeS : (docLines R).take s = lines.take s := by
    rw [hRlines, hGL, List.append_assoc]
    exact List.take_left' hAlen
  have hcontent : (findTimingSection R).content = gen := by
    rw [hftsR]
    simp only [hlevR, hendR]
    rw [htake, List.drop_left' hAlen]
    have : joinCh '\n' (g0 :: gt) = gen.data := by
      rw [← hGL]
      exact joinCh_splitCh '\n' gen.data
    rw [this]
  have hexR : (findTimingSection R).sectionExists = true := by rw [hftsR]
  have hsyncLevR : syncLevel R = L := by
    unfold syncLevel
    rw [hexR, if_pos rfl]
    rw [hftsR]
    exact hlevR
  have hbodyR : syncBody R settings data = gen := by
    unfold syncBody
    rw [hexR, hsyncLevR, if_pos rfl, hcontent]
    exact hstable
  rw [synchronize_found R settings data s hfiR]
  rw [hbodyR, hlevR, hendR, htakeS, hGL, hdropE]
  rw [hRdef, synchronize_found D settings data s hfi, ← hgendef, ← hedef, hGL]

/-- C1 counterexample: on a document without the target section the insertion
path appends `"\n\n" ++ body ++ "\n"`, and the second pass replaces the section
without the trailing newline, so `synchronize` is not idempotent as claimed
for every document. -/
theorem synchronize_not_idempotent_insert_path :
    synchronize (synchronize docPlain cfgBottom dataEmpty) cfgBottom dataEmpty ≠
      synchronize docPlain cfgBottom dataEmpty := by decide

/-- C1 witness: the amended idempotence applied to a concrete document that
contains the section. -/
theorem synchronize_idempotent_existing_witness :
    (findTimingSection docExisting).sectionExists = true ∧
    synchronize (synchronize docExisting cfgBottom dataEmpty) cfgBottom dataEmpty =
      synchronize docExisting cfgBottom dataEmpty :=
  ⟨by decide,
   synchronize_idempotent_existing docExisting cfgBottom dataEmpty (by decide) (by decide)
     (by decide)⟩

theorem extractReflectionContent_ne_empty (sc : String) (X : String)
    (h : extractReflectionContent sc = some X) : X ≠ "" := by
  unfold extractReflectionContent at h
  cases hfi : firstIdx isReflectionHeader (splitCh '\n' sc.data) with
  | none => simp [hfi] at h
  | some rs =>
    simp only [hfi] at h
    split at h
    · simp at h
    · rename_i htxt
      have hX := (Option.some.inj h).symm
      intro hcon
      apply htxt
      have hd := congrArg String.data (hX.symm.trans hcon)
      simpa using hd

theorem joinCh_append_ne (sep : Char) (X Y : List (List Char))
    (hX : X ≠ []) (hY : Y ≠ []) :
    joinCh sep (X ++ Y) = joinCh sep X ++ sep :: joinCh sep Y := by
  induction X with
  | nil => exact absurd rfl hX
  | cons x xs ih =>
    cases xs with
    | nil =>
      cases Y with
      | nil => exact absurd rfl hY
      | cons y ys => rfl
    | cons x2 xs2 =>
      have h1 : joinCh sep ((x :: x2 :: xs2) ++ Y) =
          x ++ sep :: joinCh sep ((x2 :: xs2) ++ Y) := rfl
      have h2 : joinCh sep (x :: x2 :: xs2) =
          x ++ sep :: joinCh sep (x2 :: xs2) := rfl
      rw [h1, ih (by simp), h2]
      simp

theorem joinCh_mid (sep : Char) (A M B : List (List Char)) (hM : M ≠ []) :
    joinCh sep M <:+: joinCh sep (A ++ M ++ B) := by
  rcases List.eq_nil_or_concat A with hA | ⟨_, _, hAne⟩
  · subst hA
    simp only [List.nil_append]
    cases hB : B with
    | nil => simp
    | cons b bs =>
      rw [joinCh_append_ne sep M (b :: bs) hM (by simp)]
      exact ⟨[], sep :: joinCh sep (b :: bs), by simp⟩
  · have hAne' : A ≠ [] := by
      rw [hAne]
      simp
    cases hB : B with
    | nil =>
      simp only [List.append_nil]
      rw [joinCh_append_ne sep A M hAne' hM]
      exact ⟨joinCh sep A ++ [sep], [], by simp⟩
    | cons b bs =>
      rw [List.append_assoc, joinCh_append_ne sep A (M ++ b :: bs) hAne' (by simp),
        joinCh_append_ne sep M (b :: bs) hM (by simp)]
      exact ⟨joinCh sep A ++ [sep], sep :: joinCh sep (b :: bs), by simp⟩

theorem generateTimingContent_reflection (settings : TimingPluginSettings)
    (data : DailyTimeData) (r : Option String) (L : Nat)
    (h : settings.includeReflection = true) :
    ∃ P : String, generateTimingContent settings data r L =
      P ++ generateReflectionSection r (hashes (L + 1)) := by
  unfold generateTimingContent
  simp only [h, if_true]
  exact ⟨_, rfl⟩

theorem generateReflectionSection_some (X : String) (h2 : String) (hX : X ≠ "") :
    generateReflectionSection (some X) h2 =
      (h2 ++ " Reflection\n\n") ++ X ++ "\n\n" := by
  unfold generateReflectionSection
  have ht : strTruthy (some X) = true := by
    unfold strTruthy
    simpa using hX
  rw [ht]
  simp

/-- C2 (amended): when the configuration includes the reflection sub-section
in the rendered body, the preserved text `X` extracted from the existing
section appears verbatim in the synchronized document. -/
theorem synchronize_preserves_reflection
    (D : String) (settings : TimingPluginSettings) (data : DailyTimeData) (X : String)
    (hex : (findTimingSection D).sectionExists = true)
    (hX : extractReflectionContent (findTimingSection D).content = some X)
    (hrefl : settings.includeReflection = true) :
    X.data <:+: (synchronize D settings data).data := by
  obtain ⟨s, hfi⟩ := sectionExists_some D hex
  rw [synchronize_found D settings data s hfi]
  have hXne : X ≠ "" := extractReflectionContent_ne_empty _ _ hX
  have hbody : syncBody D settings data =
      generateTimingContent settings data (some X) (syncLevel D) := by
    unfold syncBody
    rw [hex, if_pos rfl, hX]
  obtain ⟨P, hP⟩ :=
    generateTimingContent_reflection settings data (some X) (syncLevel D) hrefl
  have h1 : X.data <:+: (syncBody D settings data).data := by
    rw [hbody, hP, generateReflectionSection_some X _ hXne]
    refine ⟨P.data ++ (hashes (syncLevel D + 1) ++ " Reflection\n\n").data,
      ("\n\n" : String).data, ?_⟩
    simp [String.data_append]
  have h2 : (syncBody D settings data).data <:+:
      joinCh '\n'
        ((docLines D).take s ++ docLines (syncBody D settings data) ++
          (docLines D).drop
            (sectionEndFrom (docLines D) s (headerLevelAt (docLines D) s))) := by
    have hj : joinCh '\n' (docLines (syncBody D settings data)) =
        (syncBody D settings data).data := joinCh_splitCh '\n' _
    rw [← hj]
    exact joinCh_mid '\n' _ _ _ (splitCh_ne_nil '\n' _)
  exact h1.trans h2

/-- C2 witness: the amended preservation applied to a concrete document. -/
theorem synchronize_preserves_reflection_witness :
    ("my deep thought" : String).data <:+:
      (synchronize docReflect cfgReflect dataEmpty).data :=
  synchronize_preserves_reflection docReflect cfgReflect dataEmpty "my deep thought"
    (by decide) (by decide) rfl

/-- C2 counterexample: with a rendered body that omits the reflection section
(`includeReflection` off), the preserved text is lost, contradicting the
claim's unconditional "for any rendered body B". -/
theorem synchronize_loses_reflection_without_flag :
    (findTimingSection docReflect).sectionExists = true ∧
    extractReflectionContent (findTimingSection docReflect).content =
      some "my deep thought" ∧
    ¬ ("my deep thought" : String).data <:+:
        (synchronize docReflect cfgBottom dataEmpty).data := by
  refine ⟨by decide, by decide, ?_⟩
  set_option maxRecDepth 4096 in decide

/-- C4: the section locator satisfies the spec's contract — `startLine` is the
first matching line, `endLine` the first later position whose header depth is
`≤` the matched depth (or the line count), `content` the joined range — and on
`"## Timing Tracking\nfoo\n## Other\nbar"` it yields start 0, end 2 (the
`## Other` line) and body `"## Timing Tracking\nfoo"`. -/
theorem findTimingSection_contract :
    (∀ content : String,
      (findTimingSection content).sectionExists = true → locatorContract content) ∧
    findTimingSection "## Timing Tracking\nfoo\n## Other\nbar" =
      ⟨true, 0, 2, "## Timing Tracking\nfoo", 2⟩ := by
  constructor
  · intro content hex
    obtain ⟨s, hfi⟩ := sectionExists_some content hex
    have hfts := findTimingSection_some content s hfi
    obtain ⟨hs, hsP, hbefore⟩ := (firstIdx_eq_some_iff _ _ _).mp hfi
    have hlev : headerLevelAt (docLines content) s =
        leadingHashes ((docLines content).getD s []) := by
      unfold headerLevelAt
      rw [if_pos]
      exact Nat.lt_of_lt_of_le Nat.zero_lt_one (isTimingHeader_levels _ hsP).1
    obtain ⟨h1, h2, h3, h4⟩ :=
      sectionEndFrom_spec (docLines content) s (headerLevelAt (docLines content) s) hs
    refine ⟨s, sectionEndFrom (docLines content) s (headerLevelAt (docLines content) s),
      hfi, ?_, ?_, ?_, ?_, h1, h2, ?_, ?_, ?_⟩
    · rw [hfts]
    · rw [hfts]
    · rw [hfts]
      exact hlev
    · intro j hj
      exact hbefore j hj
    · intro j hj1 hj2
      rw [hfts]
      exact h3 j hj1 hj2
    · intro hlt
      rw [hfts]
      exact h4 hlt
    · rw [hfts]
  · decide

/-- C4 witness: the contract instantiated on a concrete document. -/
theorem findTimingSection_contract_witness : locatorContract docExisting :=
  findTimingSection_contract.1 docExisting (by decide)

/-- C5 (amended): synchronizing the empty document under the Bottom placement
appends two leading newlines and one trailing newline around the rendered
body — it never fails, but the result is not solely the rendered body. -/
theorem synchronize_empty_bottom (settings : TimingPluginSettings)
    (data : DailyTimeData) (h : settings.timingSectionLocation = .bottom) :
    synchronize "" settings data =
      "\n\n" ++ generateTimingContent settings data none 2 ++ "\n" := by
  have h0 : firstIdx isTimingHeader (docLines "") = none := by decide
  rw [synchronize_notfound "" settings data h0]
  unfold insertAtPosition findInsertionPoint
  rw [h]
  apply String.ext
  simp [String.data_append]
  rw [show endsWith2Nl [] = false from rfl, show endsWithNl [] = false from rfl,
    show startsWithNl [] = false from rfl]
  simp

/-- C5 witness: the amended equation at a concrete configuration. -/
theorem synchronize_empty_bottom_witness :
    synchronize "" cfgBottom dataEmpty =
      "\n\n" ++ generateTimingContent cfgBottom dataEmpty none 2 ++ "\n" :=
  synchronize_empty_bottom cfgBottom dataEmpty rfl

/-- C5 counterexample: the result is not "solely the rendered body" — the
insertion spacing adds a leading blank-line anomaly on the empty document. -/
theorem synchronize_empty_not_body_only :
    synchronize "" cfgBottom dataEmpty ≠
      generateTimingContent cfgBottom dataEmpty none 2 := by decide

/-- C6 (amended): `findAfterSpecificHeader`'s actual placement — when the
named header is absent the result is the end of the document (Bottom
behavior, no error); when it is found and a later header of depth `≤` its own
exists at line `i+1+k`, the body goes right before that line (after the
section); but when no such header follows, the insertion point is directly
after the header line itself, not after the section's last line as the claim
states. -/
theorem findAfterSpecificHeader_cases (content name : String) :
    (firstIdx (isNamedHeader name.data) (docLines content) = none →
      findAfterSpecificHeader content name = content.data.length) ∧
    (∀ i, firstIdx (isNamedHeader name.data) (docLines content) = some i →
      (∀ k, firstIdx (isSectionEnd (headerLevelAt (docLines content) i))
          ((docLines content).drop (i+1)) = some k →
        findAfterSpecificHeader content name =
          (joinCh '\n' ((docLines content).take (i+1+k))).length + 1) ∧
      (firstIdx (isSectionEnd (headerLevelAt (docLines content) i))
          ((docLines content).drop (i+1)) = none →
        findAfterSpecificHeader content name =
          (joinCh '\n' ((docLines content).take (i+1))).length + 1)) := by
  constructor
  · intro h
    have h' : firstIdx (isNamedHeader name.data) (splitCh '\n' content.data) = none := h
    unfold findAfterSpecificHeader
    simp only [h']
  · intro i hi
    have hi' : firstIdx (isNamedHeader name.data) (splitCh '\n' content.data) = some i := hi
    constructor
    · intro k hk
      have hk' : firstIdx (isSectionEnd (headerLevelAt (splitCh '\n' content.data) i))
          ((splitCh '\n' content.data).drop (i+1)) = some k := hk
      unfold findAfterSpecificHeader
      simp only [hi', hk']
      rfl
    · intro hk
      have hk' : firstIdx (isSectionEnd (headerLevelAt (splitCh '\n' content.data) i))
          ((splitCh '\n' content.data).drop (i+1)) = none := hk
      unfold findAfterSpecificHeader
      simp only [hi', hk']
      rfl

/-- C6 witness: on `"## Tasks\n- a\n- b"` the header is found at line 0 with
no later terminating header, so the insertion point is offset 9, right after
the header line. -/
theorem findAfterSpecificHeader_cases_witness :
    findAfterSpecificHeader docTasks "Tasks" =
      (joinCh '\n' ((docLines docTasks).take 1)).length + 1 :=
  (((findAfterSpecificHeader_cases docTasks "Tasks").2 0 (by decide)).2 (by decide))

/-- C6 counterexample: for `"## Tasks\n- a\n- b"` the depth-scan section of
`Tasks` extends to the end of the document (offset 16), but the computed
insertion point is 9 — before the section's body lines, not after its last
line as the claim requires. -/
theorem findAfterSpecificHeader_not_after_section :
    findAfterSpecificHeader docTasks "Tasks" = 9 ∧
    docTasks.data.length = 16 ∧
    findAfterSpecificHeader docTasks "Tasks" ≠ docTasks.data.length := by
  exact ⟨by decide, by decide, by decide⟩

/-- C7: the transform rejects the whole payload exactly when the payload is
null, the `date` field is missing/falsy, the date fails the strict pattern
plus calendar check, or `entries` is not an array; individually malformed
entries are dropped instead — the three-entry payload whose second entry has
`duration: "abc"` transforms into the two valid entries sorted by start
time. -/
theorem transformTimingData_failure_semantics :
    (∀ rawData : Option TimingRawData,
      exceptOk (transformTimingData rawData) = structurallyValid rawData) ∧
    transformTimingData payloadResilience =
      .ok ⟨"2024-01-15",
        [⟨"08:00:00", "08:05:00", 300, "C", some "Work", none, some 3⟩,
         ⟨"09:00:00", "09:30:00", 1800, "A", none, none, none⟩],
        ⟨2100, [("C", 300), ("A", 1800)], [("Work", 300)],
          [(some 8, 300), (some 9, 1800)]⟩⟩ := by
  constructor
  · intro rawData
    cases rawData with
    | none => rfl
    | some r =>
      unfold transformTimingData validateRawData structurallyValid
      by_cases h1 : strTruthy r.date
      · by_cases h2 : isValidDate (r.date.getD "")
        · cases he : r.entries with
          | none => simp [h1, h2, he, exceptOk]
          | some es => simp [h1, h2, he, exceptOk]
        · simp [h1, h2, exceptOk]
      · simp [h1, exceptOk]
  · decide

/-- C8 (amended): within `transformEntry`, a duration is accepted exactly
when it is a JS number that is non-negative, and is then coerced with
`Math.round`; a numeric *string* duration is rejected by `validateRawEntry`
(which requires `typeof duration === 'number'`) before `parseDuration`'s
string branch could coerce it, so such entries are dropped. -/
theorem transformEntry_duration_rule (e : RawEntry)
    (h1 : strTruthy e.startTime = true) (h2 : strTruthy e.endTime = true)
    (h3 : strTruthy e.application = true)
    (h4 : (normalizeTime (e.startTime.getD "")).isSome = true)
    (h5 : (normalizeTime (e.endTime.getD "")).isSome = true) :
    ((transformEntry e).isSome = true ↔
      ∃ q : ℚ, e.duration = JsValue.num q ∧ 0 ≤ q.num) ∧
    (∀ q : ℚ, e.duration = JsValue.num q → 0 ≤ q.num →
      ∃ te, transformEntry e = some te ∧ te.duration = maxInt 0 (jsRound q)) := by
  obtain ⟨st, hst⟩ := Option.isSome_iff_exists.mp h4
  obtain ⟨et, het⟩ := Option.isSome_iff_exists.mp h5
  have hval : validateRawEntry e =
      match e.duration with
      | .num q => if q.num < 0 then none else some ()
      | _ => none := by
    unfold validateRawEntry
    rw [h1, h2, h3]
    simp
  constructor
  · constructor
    · intro hsome
      cases hd : e.duration with
      | num q =>
        refine ⟨q, rfl, ?_⟩
        by_contra hq
        have hq' : q.num < 0 := by omega
        unfold transformEntry at hsome
        rw [hval, hd] at hsome
        simp [hq'] at hsome
      | str s =>
        unfold transformEntry at hsome
        rw [hval, hd] at hsome
        simp at hsome
      | undef =>
        unfold transformEntry at hsome
        rw [hval, hd] at hsome
        simp at hsome
    · intro ⟨q, hd, hq⟩
      have hq' : ¬ (q.num < 0) := by omega
      unfold transformEntry
      rw [hval, hd]
      simp [hq', hst, het, parseDuration]
  · intro q hd hq
    have hq' : ¬ (q.num < 0) := by omega
    unfold transformEntry
    rw [hval, hd]
    simp [hq', hst, het, parseDuration]

/-- C8 witness: the duration rule applied to a concrete valid raw entry. -/
theorem transformEntry_duration_rule_witness :
    ((transformEntry rawA).isSome = true ↔
      ∃ q : ℚ, rawA.duration = JsValue.num q ∧ 0 ≤ q.num) ∧
    (∀ q : ℚ, rawA.duration = JsValue.num q → 0 ≤ q.num →
      ∃ te, transformEntry rawA = some te ∧ te.duration = maxInt 0 (jsRound q)) :=
  transformEntry_duration_rule rawA (by decide) (by decide) (by decide) (by decide)
    (by decide)

/-- C8 counterexample: the numeric string `"300"` is a value
`parseDuration` would coerce to `300`, yet the entry carrying it is dropped,
refuting the claim that numeric strings are accepted. -/
theorem transformEntry_drops_numeric_string :
    jsParseInt "300" = some 300 ∧ parseDuration (JsValue.str "300") = some 300 ∧
    transformEntry rawStrDur = none := by decide

theorem mapGet_mapSet_self {κ ν : Type} [DecidableEq κ] (k : κ) (v : ν)
    (m : List (κ × ν)) : mapGet k (mapSet k v m) = some v := by
  induction m with
  | nil => simp [mapSet, mapGet]
  | cons kv m ih =>
    obtain ⟨k', v'⟩ := kv
    by_cases h : k' = k
    · simp [mapSet, mapGet, h]
    · simp [mapSet, mapGet, h, ih]

theorem mapGet_mapSet_ne {κ ν : Type} [DecidableEq κ] (k key : κ) (v : ν)
    (m : List (κ × ν)) (h : k ≠ key) :
    mapGet key (mapSet k v m) = mapGet key m := by
  induction m with
  | nil => simp [mapSet, mapGet, h]
  | cons kv m ih =>
    obtain ⟨k', v'⟩ := kv
    by_cases h1 : k' = k
    · subst h1
      simp [mapSet, mapGet, h]
    · by_cases h2 : k' = key
      · simp [mapSet, mapGet, h1, h2, Ne.symm h]
      · simp [mapSet, mapGet, h1, h2, Ne.symm h, ih]

theorem lookupD_mapSet_add {κ : Type} [DecidableEq κ] (k key : κ) (d : Int)
    (m : List (κ × Int)) :
    lookupD key (mapSet k (lookupD k m + d) m) =
      lookupD key m + (if k = key then d else 0) := by
  by_cases h : k = key
  · subst h
    unfold lookupD
    rw [mapGet_mapSet_self]
    simp
  · unfold lookupD
    rw [mapGet_mapSet_ne k key _ m h]
    simp [h]

theorem summaryFold_spec (entries : List TimeEntry) (acc : TimeSummary) :
    (entries.foldl summaryStep acc).totalTime =
      acc.totalTime + (entries.map TimeEntry.duration).sum ∧
    (∀ a : String,
      lookupD a (entries.foldl summaryStep acc).byApplication =
        lookupD a acc.byApplication +
          ((entries.filter (fun e => e.application == a)).map TimeEntry.duration).sum) ∧
    (∀ c : String,
      lookupD c (entries.foldl summaryStep acc).byCategory =
        lookupD c acc.byCategory +
          ((entries.filter (fun e => truthyCategory e == some c)).map
            TimeEntry.duration).sum) ∧
    (∀ hk : Option Int,
      lookupD hk (entries.foldl summaryStep acc).byHour =
        lookupD hk acc.byHour +
          ((entries.filter (fun e => extractHour e.startTime == hk)).map
            TimeEntry.duration).sum) := by
  induction entries generalizing acc with
  | nil => simp
  | cons e es ih =>
    have hfold : (e :: es).foldl summaryStep acc = es.foldl summaryStep (summaryStep acc e) :=
      rfl
    obtain ⟨ih1, ih2, ih3, ih4⟩ := ih (summaryStep acc e)
    refine ⟨?_, ?_, ?_, ?_⟩
    · rw [hfold, ih1]
      show acc.totalTime + e.duration + (es.map TimeEntry.duration).sum = _
      simp
      omega
    · intro a
      rw [hfold, ih2 a]
      have hstep : lookupD a (summaryStep acc e).byApplication =
          lookupD a acc.byApplication + (if e.application = a then e.duration else 0) := by
        show lookupD a (mapSet e.application
          ((mapGet e.application acc.byApplication).getD 0 + e.duration)
          acc.byApplication) = _
        exact lookupD_mapSet_add e.application a e.duration acc.byApplication
      rw [hstep]
      by_cases ha : e.application = a
      · simp [ha]
        omega
      · simp [ha]
    · intro c
      rw [hfold, ih3 c]
      have hstep : lookupD c (summaryStep acc e).byCategory =
          lookupD c acc.byCategory +
            (if truthyCategory e = some c then e.duration else 0) := by
        show lookupD c (match e.category with
          | some cc =>
            if cc ≠ "" then
              mapSet cc ((mapGet cc acc.byCategory).getD 0 + e.duration) acc.byCategory
            else acc.byCategory
          | none => acc.byCategory) = _
        cases hc : e.category with
        | none => simp [truthyCategory, hc]
        | some cc =>
          by_cases hcc : cc ≠ ""
          · simp only [if_pos hcc]
            rw [show (mapGet cc acc.byCategory).getD 0 = lookupD cc acc.byCategory from rfl]
            rw [lookupD_mapSet_add cc c e.duration acc.byCategory]
            simp [truthyCategory, hc, hcc]
          · simp [truthyCategory, hc, hcc]
      rw [hstep]
      by_cases hc2 : truthyCategory e = some c
      · simp [hc2]
        omega
      · simp [hc2]
    · intro hk
      rw [hfold, ih4 hk]
      have hstep : lookupD hk (summaryStep acc e).byHour =
          lookupD hk acc.byHour +
            (if extractHour e.startTime = hk then e.duration else 0) := by
        show lookupD hk (mapSet (extractHour e.startTime)
          ((mapGet (extractHour e.startTime) acc.byHour).getD 0 + e.duration)
          acc.byHour) = _
        exact lookupD_mapSet_add (extractHour e.startTime) hk e.duration acc.byHour
      rw [hstep]
      by_cases hh : extractHour e.startTime = hk
      · simp [hh]
        omega
      · simp [hh]

/-- C9: over the surviving entries the summary's `totalTime` is the sum of
all durations, `byApplication`/`byCategory` map each label to the summed
durations of the entries carrying it, and `byHour` attributes each entry's
whole duration to the integer hour parsed from its start time; the two-entry
example aggregates to `totalTime = 2400`, `byApplication = {A: 2400}`,
`byHour = {9: 1800, 10: 600}`. -/
theorem calculateSummary_correct :
    (∀ entries : List TimeEntry,
      (calculateSummary entries).totalTime = (entries.map TimeEntry.duration).sum ∧
      (∀ a : String, lookupD a (calculateSummary entries).byApplication =
        ((entries.filter (fun e => e.application == a)).map TimeEntry.duration).sum) ∧
      (∀ c : String, lookupD c (calculateSummary entries).byCategory =
        ((entries.filter (fun e => truthyCategory e == some c)).map
          TimeEntry.duration).sum) ∧
      (∀ hk : Option Int, lookupD hk (calculateSummary entries).byHour =
        ((entries.filter (fun e => extractHour e.startTime == hk)).map
          TimeEntry.duration).sum)) ∧
    transformTimingData payloadAggregation =
      .ok ⟨"2024-01-15",
        [⟨"09:00:00", "09:30:00", 1800, "A", none, none, none⟩,
         ⟨"10:00:00", "10:10:00", 600, "A", none, none, none⟩],
        ⟨2400, [("A", 2400)], [], [(some 9, 1800), (some 10, 600)]⟩⟩ := by
  constructor
  · intro entries
    obtain ⟨h1, h2, h3, h4⟩ := summaryFold_spec entries ⟨0, [], [], []⟩
    unfold calculateSummary
    exact ⟨by rw [h1]; simp,
      fun a => by rw [h2 a]; simp [lookupD, mapGet],
      fun c => by rw [h3 c]; simp [lookupD, mapGet],
      fun hk => by rw [h4 hk]; simp [lookupD, mapGet]⟩
  · decide

/-- C10: a reflection sub-section whose body trims to nothing yields no
preserved content (`extractReflectionContent` returns `none`, never an empty
string), and a body rendered with no preserved content carries the fixed
placeholder comment in its reflection section — content survives only when
its trimmed text is non-empty. -/
theorem reflection_blank_extraction :
    (∀ sc : String, reflectionBodyBlank sc = true →
      extractReflectionContent sc = none) ∧
    (∀ (sc X : String), extractReflectionContent sc = some X → X ≠ "") ∧
    (∀ (settings : TimingPluginSettings) (data : DailyTimeData) (L : Nat),
      settings.includeReflection = true →
      ("<!-- Add your daily time usage reflection here -->" : String).data <:+:
        (generateTimingContent settings data none L).data) := by
  refine ⟨?_, ?_, ?_⟩
  · intro sc h
    unfold reflectionBodyBlank at h
    unfold extractReflectionContent
    cases hfi : firstIdx isReflectionHeader (splitCh '\n' sc.data) with
    | none => simp [hfi]
    | some rs =>
      simp only [hfi] at h ⊢
      have htxt : jsTrim (joinCh '\n'
          (((splitCh '\n' sc.data).take
              (sectionEndFrom (splitCh '\n' sc.data) rs
                (headerLevelAt (splitCh '\n' sc.data) rs))).drop (rs+1))) = [] := by
        simpa using h
      simp [htxt]
  · intro sc X h
    exact extractReflectionContent_ne_empty sc X h
  · intro settings data L h
    obtain ⟨P, hP⟩ := generateTimingContent_reflection settings data none L h
    rw [hP]
    have hnone : generateReflectionSection none (hashes (L+1)) =
        (hashes (L+1) ++ " Reflection\n\n") ++
          "<!-- Add your daily time usage reflection here -->\n\n" := by
      unfold generateReflectionSection strTruthy
      simp
    rw [hnone]
    have hsplit : ("<!-- Add your daily time usage reflection here -->\n\n" : String).data =
        ("<!-- Add your daily time usage reflection here -->" : String).data ++
          ['\n', '\n'] := by decide
    refine ⟨P.data ++ (hashes (L+1) ++ " Reflection\n\n").data, ['\n', '\n'], ?_⟩
    simp [String.data_append, hsplit]

/-- C10 witness: the blank-reflection rules applied to concrete inputs. -/
theorem reflection_blank_extraction_witness :
    extractReflectionContent docBlankReflect = none ∧
    ("hi" : String) ≠ "" ∧
    ("<!-- Add your daily time usage reflection here -->" : String).data <:+:
      (generateTimingContent cfgReflect dataEmpty none 2).data :=
  ⟨reflection_blank_extraction.1 docBlankReflect (by decide),
   reflection_blank_extraction.2.1 "### Reflection\nhi" "hi" (by decide),
   reflection_blank_extraction.2.2 cfgReflect dataEmpty 2 rfl⟩

theorem bodyWF_filter (B : String) (L : Nat) (h : bodyWF B L = true) :
    (docLines B).filter isTimingHeader = [(docLines B).headD []] ∧ docLines B ≠ [] := by
  cases hGL : docLines B with
  | nil =>
    exfalso
    unfold bodyWF at h
    rw [hGL] at h
    simp at h
  | cons g0 gt =>
    have h2 : (isTimingHeader g0 && (leadingHashes g0 == L) &&
        gt.all (fun l => !isTimingHeader l && !isSectionEnd L l)) = true := by
      unfold bodyWF at h
      rw [hGL] at h
      exact h
    simp only [Bool.and_eq_true, List.all_eq_true, Bool.not_eq_true'] at h2
    obtain ⟨⟨hg0, _⟩, htail⟩ := h2
    constructor
    · rw [List.filter_cons_of_pos hg0, List.filter_eq_nil_iff.mpr
        (fun l hl => by simp [(htail l hl).1])]
      rfl
    · simp

theorem ends2_to_endsNl (l : List Char) (h : endsWith2Nl l = true) :
    endsWithNl l = true := by
  unfold endsWith2Nl at h
  unfold endsWithNl
  cases hr : l.reverse with
  | nil => rw [hr] at h; simp at h
  | cons c r =>
    rw [hr] at h
    cases r with
    | nil => simp at h
    | cons c2 r2 =>
      simp at h
      simp [h.1]

theorem endsWithNl_decomp (l : List Char) (h : endsWithNl l = true) :
    ∃ t, l = t ++ ['\n'] := by
  unfold endsWithNl at h
  cases hr : l.reverse with
  | nil => rw [hr] at h; simp at h
  | cons c r =>
    rw [hr] at h
    simp at h
    subst h
    exact ⟨r.reverse, by rw [← List.reverse_reverse l, hr]; simp⟩

theorem data_ends_nl_append (a b : String) (h : ∃ G, b.data = G ++ ['\n']) :
    ∃ G, (a ++ b).data = G ++ ['\n'] := by
  obtain ⟨G, hG⟩ := h
  exact ⟨a.data ++ G, by rw [String.data_append, hG, List.append_assoc]⟩

theorem generateSummarySection_nl (settings : TimingPluginSettings)
    (data : DailyTimeData) (h2 : String) :
    ∃ G, (generateSummarySection settings data h2).data = G ++ ['\n'] := by
  unfold generateSummarySection
  exact data_ends_nl_append _ _ ⟨[], rfl⟩

theorem generateApplicationSection_nl (settings : TimingPluginSettings)
    (data : DailyTimeData) (h2 : String) :
    ∃ G, (generateApplicationSection settings data h2).data = G ++ ['\n'] := by
  unfold generateApplicationSection
  by_cases h : data.summary.byApplication.isEmpty
  · simp only [h, if_true]
    exact data_ends_nl_append _ _
      ⟨("*No application data available*\n" : String).data, by decide⟩
  · simp only [h, if_false]
    exact data_ends_nl_append _ _ ⟨[], rfl⟩

theorem generateCategorySection_nl (settings : TimingPluginSettings)
    (data : DailyTimeData) (h2 : String) :
    ∃ G, (generateCategorySection settings data h2).data = G ++ ['\n'] := by
  unfold generateCategorySection
  by_cases h : data.summary.byCategory.isEmpty
  · simp only [h, if_true]
    exact data_ends_nl_append _ _
      ⟨("*No category data available*\n" : String).data, by decide⟩
  · simp only [h, if_false]
    exact data_ends_nl_append _ _ ⟨[], rfl⟩

theorem generateTimelineSection_nl (settings : TimingPluginSettings)
    (data : DailyTimeData) (h2 : String) :
    ∃ G, (generateTimelineSection settings data h2).data = G ++ ['\n'] := by
  unfold generateTimelineSection
  by_cases h : data.entries.isEmpty
  · simp only [h, if_true]
    exact data_ends_nl_append _ _
      ⟨("*No timeline data available*\n" : String).data, by decide⟩
  · simp only [h, if_false]
    by_cases h2e : (filterEntriesByMinimumDuration data.entries settings.minimumDuration).isEmpty
    · simp only [h2e, if_true]
      exact data_ends_nl_append _ _
        ⟨("*No activities meet the minimum duration threshold*\n" : String).data, by decide⟩
    · simp only [h2e, if_false]
      exact data_ends_nl_append _ _ ⟨[], rfl⟩

theorem generateReflectionSection_nl (r : Option String) (h2 : String) :
    ∃ G, (generateReflectionSection r h2).data = G ++ ['\n'] := by
  unfold generateReflectionSection
  by_cases h : strTruthy r
  · simp only [h, if_true]
    exact data_ends_nl_append _ _ ⟨['\n'], by decide⟩
  · simp only [h, if_false]
    exact data_ends_nl_append _ _
      ⟨("<!-- Add your daily time usage reflection here -->\n" : String).data, by decide⟩

theorem generateTimingContent_nl (settings : TimingPluginSettings)
    (data : DailyTimeData) (r : Option String) (L : Nat) :
    ∃ G, (generateTimingContent settings data r L).data = G ++ ['\n'] := by
  unfold generateTimingContent
  by_cases h5 : settings.includeReflection
  · simp only [h5, if_true]
    exact data_ends_nl_append _ _ (generateReflectionSection_nl _ _)
  · simp only [h5, if_false]
    by_cases h4 : settings.includeTimeline
    · simp only [h4, if_true]
      exact data_ends_nl_append _ _ (generateTimelineSection_nl _ _ _)
    · simp only [h4, if_false]
      by_cases h3 : settings.groupBy = GroupBy.category ∨ settings.groupBy = GroupBy.both
      · simp only [if_pos h3]
        exact data_ends_nl_append _ _ (generateCategorySection_nl _ _ _)
      · simp only [if_neg h3]
        by_cases h2 : settings.groupBy = GroupBy.application ∨ settings.groupBy = GroupBy.both
        · simp only [if_pos h2]
          exact data_ends_nl_append _ _ (generateApplicationSection_nl _ _ _)
        · simp only [if_neg h2]
          exact data_ends_nl_append _ _ (generateSummarySection_nl _ _ _)

theorem joinCh_take_drop (sep : Char) (ls : List (List Char)) (k : Nat)
    (h1 : 0 < k) (h2 : k < ls.length) :
    joinCh sep ls = joinCh sep (ls.take k) ++ sep :: joinCh sep (ls.drop k) := by
  have htk : ls.take k ≠ [] := by
    intro hc
    have hl := congrArg List.length hc
    rw [List.length_take] at hl
    simp only [List.length_nil] at hl
    omega
  have hdr : ls.drop k ≠ [] := by
    intro hc
    have hl := congrArg List.length hc
    rw [List.length_drop] at hl
    simp only [List.length_nil] at hl
    omega
  calc joinCh sep ls = joinCh sep (ls.take k ++ ls.drop k) := by rw [List.take_append_drop]
    _ = joinCh sep (ls.take k) ++ sep :: joinCh sep (ls.drop k) :=
        joinCh_append_ne sep _ _ htk hdr

theorem boundary_take_drop (D : String) (k : Nat)
    (h1 : 1 ≤ k) (h2 : k < (docLines D).length) :
    D.data.take ((joinCh '\n' ((docLines D).take k)).length + 1) =
      joinCh '\n' ((docLines D).take k) ++ ['\n'] ∧
    D.data.drop ((joinCh '\n' ((docLines D).take k)).length + 1) =
      joinCh '\n' ((docLines D).drop k) := by
  have hD : D.data = joinCh '\n' (docLines D) := (joinCh_splitCh '\n' D.data).symm
  have hsplit := joinCh_take_drop '\n' (docLines D) k (by omega) h2
  constructor
  · conv_lhs => rw [hD, hsplit]
    rw [List.take_append]
    rfl
  · conv_lhs => rw [hD, hsplit]
    rw [List.drop_append]
    rfl

theorem insertionPoint_classification (settings : TimingPluginSettings) (D : String) :
    findInsertionPoint settings D = 0 ∨
    D.data.length ≤ findInsertionPoint settings D ∨
    ∃ k, 1 ≤ k ∧ k < (docLines D).length ∧
      findInsertionPoint settings D = (joinCh '\n' ((docLines D).take k)).length + 1 := by
  unfold findInsertionPoint
  cases hloc : settings.timingSectionLocation with
  | bottom => exact Or.inr (Or.inl (Nat.le_refl _))
  | custom => exact Or.inr (Or.inl (Nat.le_refl _))
  | top =>
    unfold findAfterTitle
    cases hfi : firstIdx startsWithH1 (splitCh '\n' D.data) with
    | none => exact Or.inl (by simp [hfi])
    | some i =>
      have hi := ((firstIdx_eq_some_iff _ _ _).mp hfi).1
      by_cases hk : i + 1 < (splitCh '\n' D.data).length
      · exact Or.inr (Or.inr ⟨i + 1, by omega, hk, by simp [hfi]; rfl⟩)
      · refine Or.inr (Or.inl ?_)
        have htk : (splitCh '\n' D.data).take (i+1) = splitCh '\n' D.data :=
          List.take_of_length_le (by omega)
        simp only [hfi]
        rw [htk, joinCh_splitCh]
        omega
  | afterHeader =>
    unfold findAfterSpecificHeader
    cases hfi : firstIdx
        (isNamedHeader
          (if settings.afterHeaderName = "" then "Tasks" else settings.afterHeaderName).data)
        (splitCh '\n' D.data) with
    | none => exact Or.inr (Or.inl (by simp [hfi]))
    | some i =>
      have hi := ((firstIdx_eq_some_iff _ _ _).mp hfi).1
      cases hfi2 : firstIdx
          (isSectionEnd (headerLevelAt (splitCh '\n' D.data) i))
          ((splitCh '\n' D.data).drop (i+1)) with
      | some kk =>
        have hkk := ((firstIdx_eq_some_iff _ _ _).mp hfi2).1
        rw [List.length_drop] at hkk
        have hkk' : kk < (docLines D).length - (i + 1) := hkk
        exact Or.inr (Or.inr ⟨i + 1 + kk, by omega, by omega, by simp [hfi, hfi2]; rfl⟩)
      | none =>
        by_cases hk : i + 1 < (splitCh '\n' D.data).length
        · exact Or.inr (Or.inr ⟨i + 1, by omega, hk, by simp [hfi, hfi2]; rfl⟩)
        · refine Or.inr (Or.inl ?_)
          have htk : (splitCh '\n' D.data).take (i+1) = splitCh '\n' D.data :=
            List.take_of_length_le (by omega)
          simp only [hfi, hfi2]
          rw [htk, joinCh_splitCh]
          omega

theorem filter_splitCh_sep (P : List Char → Bool) (a b : List Char) :
    (splitCh '\n' (a ++ '\n' :: b)).filter P =
      (splitCh '\n' a).filter P ++ (splitCh '\n' b).filter P := by
  rw [splitCh_append_sep, List.filter_append]

/-- Inserting a newline-terminated body at a position whose two sides contain
no `P`-line leaves exactly the body's `P`-lines in the result, whatever
spacing `insertAtPosition` decides to add. -/
theorem filter_insertAtPosition
    (content ins : String) (p : Nat) (P : List Char → Bool)
    (hP : P [] = false)
    (G : List Char) (hG : ins.data = G ++ ['\n'])
    (hbefore : (splitCh '\n' (content.data.take p)).filter P = [])
    (hafter : (splitCh '\n' (content.data.drop p)).filter P = []) :
    (docLines (insertAtPosition content p ins)).filter P = (docLines ins).filter P := by
  have hRHS : (docLines ins).filter P = (splitCh '\n' G).filter P := by
    unfold docLines
    rw [hG, show G ++ ['\n'] = G ++ '\n' :: [] from rfl, splitCh_append_sep]
    simp [splitCh, hP]
  set before := content.data.take p with hbef
  set after := content.data.drop p with haft
  have hzend : ∀ z : List Char, z = [] ∨ z = ['\n'] →
      (splitCh '\n' (z ++ after)).filter P = [] := by
    intro z hz
    rcases hz with hz | hz
    · rw [hz]
      exact hafter
    · rw [hz, show ['\n'] ++ after = '\n' :: after from rfl, splitCh_cons_sep]
      simp [hP, hafter]
  have hendSp : (if startsWithNl after then ([] : List Char) else ['\n']) = [] ∨
      (if startsWithNl after then ([] : List Char) else ['\n']) = ['\n'] := by
    by_cases h : startsWithNl after
    · exact Or.inl (by rw [if_pos h])
    · exact Or.inr (by rw [if_neg h])
  have hGpart : ∀ z : List Char, z = [] ∨ z = ['\n'] →
      (splitCh '\n' (ins.data ++ z ++ after)).filter P = (splitCh '\n' G).filter P := by
    intro z hz
    have he : ins.data ++ z ++ after = G ++ '\n' :: (z ++ after) := by
      rw [hG]
      simp
    rw [he, filter_splitCh_sep, hzend z hz]
    simp
  have hgoal : docLines (insertAtPosition content p ins) =
      splitCh '\n' (before ++
        (if endsWith2Nl before then ([] : List Char)
          else if endsWithNl before then ['\n'] else ['\n', '\n']) ++
        ins.data ++ (if startsWithNl after then ([] : List Char) else ['\n']) ++ after) :=
    rfl
  rw [hgoal, hRHS]
  by_cases h2 : endsWith2Nl before
  · obtain ⟨b0, hb0⟩ := endsWithNl_decomp before (ends2_to_endsNl before h2)
    have hbef0 : (splitCh '\n' b0).filter P = [] := by
      have : (splitCh '\n' before).filter P = [] := hbefore
      rw [hb0, show b0 ++ ['\n'] = b0 ++ '\n' :: [] from rfl, splitCh_append_sep] at this
      rw [List.filter_append] at this
      exact (List.append_eq_nil.mp this).1
    rw [show (if endsWith2Nl before then ([] : List Char)
        else if endsWithNl before then ['\n'] else ['\n', '\n']) = [] from by rw [if_pos h2]]
    have he : before ++ [] ++ ins.data ++
        (if startsWithNl after then ([] : List Char) else ['\n']) ++ after =
        b0 ++ '\n' :: (ins.data ++
          (if startsWithNl after then ([] : List Char) else ['\n']) ++ after) := by
      rw [hb0]
      simp
    rw [he, filter_splitCh_sep, hbef0, hGpart _ hendSp]
    simp
  · by_cases h1 : endsWithNl before
    · rw [show (if endsWith2Nl before then ([] : List Char)
          else if endsWithNl before then ['\n'] else ['\n', '\n']) = ['\n'] from by
        rw [if_neg h2, if_pos h1]]
      have he : before ++ ['\n'] ++ ins.data ++
          (if startsWithNl after then ([] : List Char) else ['\n']) ++ after =
          before ++ '\n' :: (ins.data ++
            (if startsWithNl after then ([] : List Char) else ['\n']) ++ after) := by
        simp
      rw [he, filter_splitCh_sep, hbefore, hGpart _ hendSp]
      simp
    · rw [show (if endsWith2Nl before then ([] : List Char)
          else if endsWithNl before then ['\n'] else ['\n', '\n']) = ['\n', '\n'] from by
        rw [if_neg h2, if_neg h1]]
      have he : before ++ ['\n', '\n'] ++ ins.data ++
          (if startsWithNl after then ([] : List Char) else ['\n']) ++ after =
          before ++ '\n' :: ('\n' :: (ins.data ++
            (if startsWithNl after then ([] : List Char) else ['\n']) ++ after)) := by
        simp
      rw [he, filter_splitCh_sep]
      rw [show ('\n' :: (ins.data ++
          (if startsWithNl after then ([] : List Char) else ['\n']) ++ after)) =
          [] ++ '\n' :: (ins.data ++
            (if startsWithNl after then ([] : List Char) else ['\n']) ++ after) from rfl]
      rw [filter_splitCh_sep, hbefore, hGpart _ hendSp]
      simp [splitCh, hP]

/-- C3: starting from a document with at most one recognized section (zero or
one matching header lines), the synchronized result contains exactly one
matching header line — the rendered body's own header — so the section just
written is the unique one a subsequent scan finds; and the locator always
recognizes the first matching line, regardless of depth. -/
theorem synchronize_single_section
    (D : String) (settings : TimingPluginSettings) (data : DailyTimeData)
    (hcount : (docLines D).countP isTimingHeader ≤ 1)
    (hwf : bodyWF (syncBody D settings data) (syncLevel D) = true) :
    (docLines (synchronize D settings data)).filter isTimingHeader =
      [(docLines (syncBody D settings data)).headD []] ∧
    (findTimingSection (synchronize D settings data)).sectionExists = true ∧
    (∀ (E : String) (k : Nat), firstIdx isTimingHeader (docLines E) = some k →
      (findTimingSection E).startLine = Int.ofNat k) := by
  have hthird : ∀ (E : String) (k : Nat), firstIdx isTimingHeader (docLines E) = some k →
      (findTimingSection E).startLine = Int.ofNat k := by
    intro E k h
    rw [findTimingSection_some E k h]
  obtain ⟨hfil, hne⟩ := bodyWF_filter _ _ hwf
  have hmain : (docLines (synchronize D settings data)).filter isTimingHeader =
      [(docLines (syncBody D settings data)).headD []] := by
    cases hfi : firstIdx isTimingHeader (docLines D) with
    | some s =>
      obtain ⟨hs, hsP, _⟩ := (firstIdx_eq_some_iff _ _ _).mp hfi
      have hRlines := docLines_synchronize_found D settings data s hfi hne
      rw [hRlines, List.filter_append, List.filter_append]
      have f1 : ((docLines D).take s).filter isTimingHeader = [] :=
        List.filter_eq_nil_iff.mpr (firstIdx_not_on_take _ _ _ hfi)
      have hdecomp : docLines D =
          (docLines D).take s ++ (docLines D).getD s [] :: (docLines D).drop (s+1) := by
        conv_lhs => rw [← List.take_append_drop s (docLines D)]
        congr 1
        rw [List.drop_eq_getElem_cons hs]
        congr 1
        rw [List.getD_eq_getElem?_getD, List.getElem?_eq_getElem hs]
        rfl
      have hc1 : (docLines D).countP isTimingHeader =
          ((docLines D).take s).countP isTimingHeader +
            (((docLines D).drop (s+1)).countP isTimingHeader + 1) := by
        conv_lhs => rw [hdecomp]
        rw [List.countP_append, List.countP_cons, hsP]
        simp
      have ht0 : ((docLines D).take s).countP isTimingHeader = 0 := by
        rw [List.countP_eq_length_filter, f1]
        rfl
      have hzero : ((docLines D).drop (s+1)).countP isTimingHeader = 0 := by
        omega
      have f3 : ((docLines D).drop
          (sectionEndFrom (docLines D) s (headerLevelAt (docLines D) s))).filter
            isTimingHeader = [] := by
        obtain ⟨hse, _, _, _⟩ :=
          sectionEndFrom_spec (docLines D) s (headerLevelAt (docLines D) s) hs
        apply List.filter_eq_nil_iff.mpr
        intro l hl
        have hdd : (docLines D).drop
            (sectionEndFrom (docLines D) s (headerLevelAt (docLines D) s)) =
            ((docLines D).drop (s+1)).drop
              (sectionEndFrom (docLines D) s (headerLevelAt (docLines D) s) - (s+1)) := by
          rw [List.drop_drop]
          congr 1
          omega
        rw [hdd] at hl
        exact (List.countP_eq_zero.mp hzero) l (List.drop_subset _ _ hl)
      rw [f1, hfil, f3]
      simp
    | none =>
      have hnotex := findTimingSection_none D hfi
      have hbody : syncBody D settings data = generateTimingContent settings data none 2 := by
        unfold syncBody syncLevel
        rw [hnotex]
        simp
      rw [synchronize_notfound D settings data hfi, ← hbody]
      have hall : ∀ l ∈ docLines D, ¬ isTimingHeader l := (firstIdx_eq_none_iff _ _).mp hfi
      obtain ⟨G, hG⟩ := generateTimingContent_nl settings data none 2
      rw [← hbody] at hG
      rcases insertionPoint_classification settings D with hp | hp | ⟨k, hk1, hk2, hp⟩
      · rw [hp]
        rw [filter_insertAtPosition D (syncBody D settings data) 0 isTimingHeader
          isTimingHeader_nil G hG
          (by rw [List.take_zero]; decide)
          (by rw [List.drop_zero]; exact List.filter_eq_nil_iff.mpr hall)]
        exact hfil
      · rw [filter_insertAtPosition D (syncBody D settings data) _ isTimingHeader
          isTimingHeader_nil G hG
          (by rw [List.take_of_length_le hp]; exact List.filter_eq_nil_iff.mpr hall)
          (by rw [List.drop_of_length_le hp]; decide)]
        exact hfil
      · obtain ⟨htake, hdrop⟩ := boundary_take_drop D k hk1 hk2
        have htkne : (docLines D).take k ≠ [] := by
          intro hc
          have hl := congrArg List.length hc
          rw [List.length_take] at hl
          simp only [List.length_nil] at hl
          omega
        have hdrne : (docLines D).drop k ≠ [] := by
          intro hc
          have hl := congrArg List.length hc
          rw [List.length_drop] at hl
          simp only [List.length_nil] at hl
          omega
        rw [hp]
        rw [filter_insertAtPosition D (syncBody D settings data) _ isTimingHeader
          isTimingHeader_nil G hG ?_ ?_]
        · exact hfil
        · rw [htake, show joinCh '\n' ((docLines D).take k) ++ ['\n'] =
            joinCh '\n' ((docLines D).take k) ++ '\n' :: [] from rfl, splitCh_append_sep]
          rw [splitCh_joinCh '\n' _ htkne
            (fun l hl => no_newline_in_docLines D l (List.take_subset _ _ hl))]
          rw [List.filter_append,
            List.filter_eq_nil_iff.mpr (fun l hl => hall l (List.take_subset _ _ hl))]
          decide
        · rw [hdrop]
          rw [splitCh_joinCh '\n' _ hdrne
            (fun l hl => no_newline_in_docLines D l (List.drop_subset _ _ hl))]
          exact List.filter_eq_nil_iff.mpr (fun l hl => hall l (List.drop_subset _ _ hl))
  have hex2 : (findTimingSection (synchronize D settings data)).sectionExists = true := by
    cases hfi2 : firstIdx isTimingHeader (docLines (synchronize D settings data)) with
    | none =>
      exfalso
      have hnil : (docLines (synchronize D settings data)).filter isTimingHeader = [] :=
        List.filter_eq_nil_iff.mpr ((firstIdx_eq_none_iff _ _).mp hfi2)
      rw [hmain] at hnil
      simp at hnil
    | some s2 => rw [findTimingSection_some _ s2 hfi2]
  exact ⟨hmain, hex2, hthird⟩

/-- C3 witness: the single-section property on concrete documents, via both
the insertion path (no prior section) and a prior-section document. -/
theorem synchronize_single_section_witness :
    (docLines (synchronize docPlain cfgBottom dataEmpty)).filter isTimingHeader =
      [(docLines (syncBody docPlain cfgBottom dataEmpty)).headD []] ∧
    (findTimingSection (synchronize docPlain cfgBottom dataEmpty)).sectionExists = true ∧
    (∀ (E : String) (k : Nat), firstIdx isTimingHeader (docLines E) = some k →
      (findTimingSection E).startLine = Int.ofNat k) :=
  synchronize_single_section docPlain cfgBottom dataEmpty (by decide) (by decide)

end TimingPlugin
